import Mathlib

/-!
Verification development for the GymformAI repository.

Part 1 embeds the frontend utility code (`frontend/utils/fileUtils.ts`,
`frontend/app/lib/analysisService.ts`) as Lean definitions and proves the
claimed properties about them.

Part 2 models the analysis core (`analyze` and its stages) described in the
repository specification; that core is not present in the repository source
(the spec states the pose/scoring logic lives behind an external AI call), so
each of those definitions is modelled from the spec, as flagged in its doc
comment.

Conventions: JavaScript numbers are modelled as `ℚ` (file sizes that the code
treats as byte counts as `ℕ`), strings whose per-character transformations
matter as `List Char`, and thrown errors / rejected promises as `Except`.
-/

namespace Gymform

/-! ### fileUtils.ts: formatFileSize -/

/-- The unit array `sizes = ['Bytes', 'KB', 'MB', 'GB']` from `formatFileSize`. -/
def sizes : List String := ["Bytes", "KB", "MB", "GB"]

/-- The index `i = Math.floor(Math.log(bytes) / Math.log(1024))` computed by
`formatFileSize`.  For a positive real `b`, `⌊log b / log 1024⌋` is the unique
integer `k` with `1024 ^ k ≤ b < 1024 ^ (k + 1)`; that integer is computed here
for rational inputs with `Nat.log` (for `b ≥ 1`) and `Nat.clog` of `⌈b⁻¹⌉`
(for `0 < b < 1`).  `Math.log` of a non-positive number is `NaN` (or `-∞`),
modelled as `none`.  IEEE-double rounding of `Math.log` is not modelled. -/
def logIndex (b : ℚ) : Option ℤ :=
  if 1 ≤ b then some ((Nat.log 1024 ⌊b⌋.toNat : ℕ) : ℤ)
  else if 0 < b then some (-((Nat.clog 1024 ⌈b⁻¹⌉.toNat : ℕ) : ℤ))
  else none

/-- Decimal rendering of `parseFloat(q.toFixed(2))`: round to two decimals,
then print with trailing zeros stripped, as JavaScript number-to-string does. -/
def fmt2 (q : ℚ) : String :=
  let n : ℤ := round (q * 100)
  let sign := if n < 0 then "-" else ""
  let m := n.natAbs
  let ip := m / 100
  let fr := m % 100
  if fr = 0 then sign ++ toString ip
  else if fr % 10 = 0 then sign ++ toString ip ++ "." ++ toString (fr / 10)
  else if fr < 10 then sign ++ toString ip ++ ".0" ++ toString fr
  else sign ++ toString ip ++ "." ++ toString fr

/-- The expression `parseFloat((bytes / Math.pow(k, i)).toFixed(2)) + ' ' +
sizes[i]` of `formatFileSize`, for a well-defined index `i`.  Out-of-range
array reads `sizes[i]` yield JavaScript `undefined`, which string
concatenation renders as `"undefined"`. -/
def formatWith (bytes : ℚ) (i : ℤ) : String :=
  fmt2 (bytes / 1024 ^ i) ++ " " ++
    (if i < 0 then "undefined" else sizes.getD i.toNat "undefined")

/-- `formatFileSize` from `frontend/utils/fileUtils.ts`.  An index of `NaN`
(log of a negative number) reads `sizes[NaN] = undefined` and the numeric part
`bytes / Math.pow(1024, NaN)` is `NaN`. -/
def formatFileSize (bytes : ℚ) : String :=
  if bytes = 0 then "0 Bytes"
  else
    match logIndex bytes with
    | none => "NaN" ++ " " ++ "undefined"
    | some i => formatWith bytes i

/-! ### fileUtils.ts: validateVideoFile -/

/-- The fields of a browser `File` object that `validateVideoFile` reads.  The
name is kept as a character list so that the per-character `toLowerCase` of the
source can be modelled exactly. -/
structure JsFile where
  size : ℕ
  type : String
  name : List Char
deriving DecidableEq

/-- The `{ isValid, error? }` record returned by `validateVideoFile`. -/
structure ValidationResult where
  isValid : Bool
  error : Option String
deriving DecidableEq

/-- `const maxSize = 20 * 1024 * 1024`. -/
def maxVideoSize : ℕ := 20 * 1024 * 1024

/-- `const allowedTypes = ['video/mp4', 'video/webm', 'video/quicktime']`. -/
def allowedTypes : List String := ["video/mp4", "video/webm", "video/quicktime"]

/-- `const allowedExtensions = ['.mp4', '.webm', '.mov']`. -/
def allowedExtensions : List (List Char) :=
  [".mp4".toList, ".webm".toList, ".mov".toList]

/-- `name.lastIndexOf('.')`, scanning from position `i`; `none` models the
JavaScript result `-1`. -/
def lastDotFrom : List Char → ℕ → Option ℕ
  | [], _ => none
  | c :: cs, i =>
      match lastDotFrom cs (i + 1) with
      | some j => some j
      | none => if c = '.' then some i else none

/-- `file.name.toLowerCase().substring(file.name.lastIndexOf('.'))`.  When no
dot is present `lastIndexOf` returns `-1` and `substring` clamps it to `0`,
returning the whole lowercased name. -/
def fileExtension (name : List Char) : List Char :=
  (name.map Char.toLower).drop ((lastDotFrom name 0).getD 0)

/-- `validateVideoFile` from `frontend/utils/fileUtils.ts`: size check, then
MIME-type check, then extension check. -/
def validateVideoFile (f : JsFile) : ValidationResult :=
  if maxVideoSize < f.size then
    ⟨false, some ("File size must be less than " ++ formatFileSize (maxVideoSize : ℚ))⟩
  else if f.type ∉ allowedTypes then
    ⟨false, some "Please upload a valid video file (MP4, WebM, or MOV)"⟩
  else if fileExtension f.name ∉ allowedExtensions then
    ⟨false, some "Please upload a valid video file (MP4, WebM, or MOV)"⟩
  else ⟨true, none⟩

/-! ### analysisService.ts: the AnalysisResult record and its JSON shape -/

/-- The `AnalysisResult` record type from `frontend/app/lib/analysisService.ts`
(the identical interface is repeated in the results component).  `rep_count`
is kept as `ℕ`: the external contract specifies an integer. -/
structure AnalysisResult where
  exercise : String
  score : ℚ
  risks : List String
  corrections : List String
  rep_count : ℕ
deriving DecidableEq

/-- A JSON value, for stating the serialized shape of results. -/
inductive Json where
  | str (s : String)
  | num (q : ℚ)
  | arr (xs : List Json)
  | obj (fields : List (String × Json))

/-- Modelled from the spec (§6): the HTTP layer serializes `AnalysisResult` to
`{exercise, score, risks, corrections, rep_count}`. -/
def serializeResult (r : AnalysisResult) : Json :=
  .obj [("exercise", .str r.exercise), ("score", .num r.score),
        ("risks", .arr (r.risks.map .str)),
        ("corrections", .arr (r.corrections.map .str)),
        ("rep_count", .num (r.rep_count : ℚ))]

/-- Whether a JSON value is a string. -/
def isStr : Json → Bool
  | .str _ => true
  | _ => false

/-- Whether a JSON value is a number. -/
def isNum : Json → Bool
  | .num _ => true
  | _ => false

/-- Whether a JSON value is an integral number. -/
def isIntNum : Json → Bool
  | .num q => q.den = 1
  | _ => false

/-- Whether a JSON value is an array of strings. -/
def isStrArr : Json → Bool
  | .arr xs => xs.all isStr
  | _ => false

/-- The record shape the frontend contracts against
(`analysisService.ts` lines 15–21): exactly the five fields
`{exercise: string, score: number, risks: string[], corrections: string[],
rep_count: integer}`, no extra, missing or differently-typed fields. -/
def matchesFrontendContract : Json → Bool
  | .obj [("exercise", e), ("score", s), ("risks", r), ("corrections", c),
      ("rep_count", n)] => isStr e && isNum s && isStrArr r && isStrArr c && isIntNum n
  | _ => false

/-! ### analysisService.ts: AnalysisService.analyzeVideo -/

/-- Outcome of the axios `POST /api/analyze` call, as observed by the
`try`/`catch` in `analyzeVideo`: a resolved response (axios resolves exactly
for 2xx statuses under the default `validateStatus`), an error carrying a
response (`error.response` with its status and optional `data.detail`), an
error carrying only a request (network failure), or a setup error carrying
only a message.  The response body is an arbitrary type `α`: the code performs
no validation on it. -/
inductive HttpOutcome (α : Type) where
  | success (status : ℕ) (data : α)
  | errorResponse (status : ℕ) (detail : Option String)
  | errorRequest
  | errorSetup (message : Option String)
deriving DecidableEq

/-- JavaScript `x || dflt` for an optional string: `undefined` and the empty
string are falsy. -/
def orFalsy (s : Option String) (dflt : String) : String :=
  match s with
  | none => dflt
  | some v => if v = "" then dflt else v

/-- `AnalysisService.analyzeVideo` from `frontend/app/lib/analysisService.ts`,
as a function of the HTTP outcome.  The `then`-branch returns the body iff the
status is exactly 200; the `throw new Error('Analysis failed')` for any other
2xx status is caught by the same `catch`, where it has neither `.response` nor
`.request`, so the final branch rethrows its message.  The 401 response
interceptor additionally clears the stored token and redirects, but the
rejection message is unchanged. -/
def analyzeVideo {α : Type} (o : HttpOutcome α) : Except String α :=
  match o with
  | .success s d =>
      if s = 200 then .ok d else .error "Analysis failed"
  | .errorResponse s detail =>
      if s = 401 then .error "Please sign in to analyze videos"
      else if s = 402 then
        .error "You have reached your daily limit. Please upgrade to Pro for unlimited analyses."
      else if s = 413 then
        .error "Video file is too large. Please upload a file smaller than 20MB."
      else if s = 422 then .error (orFalsy detail "Invalid video file format")
      else if s = 429 then .error "Too many requests. Please try again later."
      else if s = 500 then .error "Server error. Please try again later."
      else .error (orFalsy detail "Analysis failed. Please try again.")
  | .errorRequest => .error "Network error. Please check your connection and try again."
  | .errorSetup m => .error (orFalsy m "Analysis failed. Please try again.")

/-! ### Theorems for the frontend utility claims -/

/-- C9: `formatFileSize 0 = "0 Bytes"`; for every `bytes` with
`1 ≤ bytes < 1024 ^ 4` the computed index into `['Bytes','KB','MB','GB']` is in
bounds, so the result ends with one of those four units; for `bytes ≥ 1024 ^ 4`
and for fractional `0 < bytes < 1` the index leaves the array and the result
embeds `"undefined"`. -/
theorem c9_formatFileSize_units :
    formatFileSize 0 = "0 Bytes"
    ∧ (∀ b : ℚ, 1 ≤ b → b < 1024 ^ 4 →
        ∃ p u, formatFileSize b = p ++ " " ++ u ∧ u ∈ sizes)
    ∧ (∀ b : ℚ, (1024 : ℚ) ^ 4 ≤ b → ∃ p, formatFileSize b = p ++ " undefined")
    ∧ (∀ b : ℚ, 0 < b → b < 1 → ∃ p, formatFileSize b = p ++ " undefined") := by
  refine ⟨by norm_num [formatFileSize], ?_, ?_, ?_⟩
  · intro b h1 h4
    have hb0 : ¬ b = 0 := by intro h; rw [h] at h1; norm_num at h1
    have hfl1 : (1 : ℤ) ≤ ⌊b⌋ := Int.le_floor.mpr (by exact_mod_cast h1)
    have hflt : ⌊b⌋ < (1024 : ℤ) ^ 4 := Int.floor_lt.mpr (by push_cast; exact h4)
    have hnlt : ⌊b⌋.toNat < 1024 ^ 4 := by omega
    have hlog : Nat.log 1024 ⌊b⌋.toNat < 4 :=
      Nat.log_lt_of_lt_pow (by omega) hnlt
    have hnotneg : ¬ ((Nat.log 1024 ⌊b⌋.toNat : ℕ) : ℤ) < 0 :=
      not_lt.mpr (Int.natCast_nonneg _)
    have hidx : logIndex b = some ((Nat.log 1024 ⌊b⌋.toNat : ℕ) : ℤ) := by
      rw [logIndex, if_pos h1]
    have hmain : formatFileSize b = formatWith b ((Nat.log 1024 ⌊b⌋.toNat : ℕ) : ℤ) := by
      unfold formatFileSize
      rw [if_neg hb0, hidx]
    refine ⟨fmt2 (b / 1024 ^ ((Nat.log 1024 ⌊b⌋.toNat : ℕ) : ℤ)),
      sizes.getD (Nat.log 1024 ⌊b⌋.toNat) "undefined", ?_, ?_⟩
    · rw [hmain, formatWith, if_neg hnotneg, Int.toNat_natCast]
    · set k := Nat.log 1024 ⌊b⌋.toNat with hk
      clear_value k
      interval_cases k <;> decide
  · intro b h4
    have h1 : (1 : ℚ) ≤ b := le_trans (by norm_num) h4
    have hb0 : ¬ b = 0 := by intro h; rw [h] at h1; norm_num at h1
    have hfl : (1024 : ℤ) ^ 4 ≤ ⌊b⌋ := Int.le_floor.mpr (by push_cast; exact h4)
    have hnge : 1024 ^ 4 ≤ ⌊b⌋.toNat := by omega
    have hlog : 4 ≤ Nat.log 1024 ⌊b⌋.toNat :=
      (Nat.pow_le_iff_le_log (by omega) (by omega)).mp hnge
    have hnotneg : ¬ ((Nat.log 1024 ⌊b⌋.toNat : ℕ) : ℤ) < 0 :=
      not_lt.mpr (Int.natCast_nonneg _)
    have hdef : sizes.getD (Nat.log 1024 ⌊b⌋.toNat) "undefined" = "undefined" :=
      List.getD_eq_default _ _ (by simp only [sizes, List.length_cons, List.length_nil]; omega)
    have hidx : logIndex b = some ((Nat.log 1024 ⌊b⌋.toNat : ℕ) : ℤ) := by
      rw [logIndex, if_pos h1]
    have hmain : formatFileSize b = formatWith b ((Nat.log 1024 ⌊b⌋.toNat : ℕ) : ℤ) := by
      unfold formatFileSize
      rw [if_neg hb0, hidx]
    refine ⟨fmt2 (b / 1024 ^ ((Nat.log 1024 ⌊b⌋.toNat : ℕ) : ℤ)), ?_⟩
    rw [hmain, formatWith, if_neg hnotneg, Int.toNat_natCast, hdef, String.append_assoc]
    congr 1
  · intro b hpos hlt1
    have hb0 : ¬ b = 0 := ne_of_gt hpos
    have hn1 : ¬ (1 : ℚ) ≤ b := not_le.mpr hlt1
    have hinv : (1 : ℚ) < b⁻¹ := one_lt_inv_iff₀.mpr ⟨hpos, hlt1⟩
    have hceil : (1 : ℤ) < ⌈b⁻¹⌉ := Int.lt_ceil.mpr (by exact_mod_cast hinv)
    have hclog : 0 < Nat.clog 1024 ⌈b⁻¹⌉.toNat := Nat.clog_pos (by omega) (by omega)
    have hneg : (-((Nat.clog 1024 ⌈b⁻¹⌉.toNat : ℕ) : ℤ)) < 0 := by
      rw [neg_neg_iff_pos]
      exact_mod_cast hclog
    have hidx : logIndex b = some (-((Nat.clog 1024 ⌈b⁻¹⌉.toNat : ℕ) : ℤ)) := by
      rw [logIndex, if_neg hn1, if_pos hpos]
    have hmain : formatFileSize b =
        formatWith b (-((Nat.clog 1024 ⌈b⁻¹⌉.toNat : ℕ) : ℤ)) := by
      unfold formatFileSize
      rw [if_neg hb0, hidx]
    refine ⟨fmt2 (b / 1024 ^ (-((Nat.clog 1024 ⌈b⁻¹⌉.toNat : ℕ) : ℤ))), ?_⟩
    rw [hmain, formatWith, if_pos hneg, String.append_assoc]
    congr 1

/-- C9 witness: the theorem applied at the concrete inputs `5`, `1024 ^ 4` and
`1 / 2`, discharging each hypothesis there. -/
theorem c9_formatFileSize_units_witness :
    (∃ p u, formatFileSize 5 = p ++ " " ++ u ∧ u ∈ sizes)
    ∧ (∃ p, formatFileSize (1024 ^ 4) = p ++ " undefined")
    ∧ (∃ p, formatFileSize (1 / 2) = p ++ " undefined") :=
  ⟨c9_formatFileSize_units.2.1 5 (by norm_num) (by norm_num),
   c9_formatFileSize_units.2.2.1 (1024 ^ 4) (by norm_num),
   c9_formatFileSize_units.2.2.2 (1 / 2) (by norm_num) (by norm_num)⟩

/-- C8: `validateVideoFile` accepts exactly the files whose size is at most
`20 * 1024 * 1024` bytes, whose MIME type is one of the three allowed video
types, and whose lowercased extension from the last `'.'` is `.mp4`, `.webm`
or `.mov`; a file of exactly `20 * 1024 * 1024` bytes passes the size check
even though the rejection message says the size must be less than 20MB; and
every rejection carries a non-empty error string. -/
theorem c8_validateVideoFile :
    (∀ f : JsFile, (validateVideoFile f).isValid = true ↔
        f.size ≤ maxVideoSize ∧ f.type ∈ allowedTypes ∧
          fileExtension f.name ∈ allowedExtensions)
    ∧ (validateVideoFile ⟨20 * 1024 * 1024, "video/mp4", "clip.mp4".toList⟩).isValid = true
    ∧ (∀ f : JsFile, (validateVideoFile f).isValid = false →
        ∃ s, (validateVideoFile f).error = some s ∧ 0 < s.length) := by
  refine ⟨?_, by decide, ?_⟩
  · intro f
    unfold validateVideoFile
    split_ifs with h1 h2 h3 <;> simp_all
  · intro f hf
    unfold validateVideoFile at hf ⊢
    split_ifs at hf ⊢ with h1 h2 h3
    · refine ⟨_, rfl, ?_⟩
      have hlit : 0 < ("File size must be less than ").length := by decide
      simp only [String.length_append]
      omega
    · exact ⟨_, rfl, by decide⟩
    · exact ⟨_, rfl, by decide⟩

/-- C8 witness: the boundary file of exactly `20 * 1024 * 1024` bytes passes,
and a rejected file (wrong MIME type and extension) carries a non-empty error
string. -/
theorem c8_validateVideoFile_witness :
    ∃ s, (validateVideoFile ⟨0, "text/plain", "a.txt".toList⟩).error = some s ∧
      0 < s.length :=
  c8_validateVideoFile.2.2 ⟨0, "text/plain", "a.txt".toList⟩ (by decide)

/-- C10: `analyzeVideo` resolves with a value exactly when the HTTP response
status is 200, and that value is the response body unchanged (for an arbitrary
body type `α`, unvalidated); every error response rejects with an error whose
message is a function of the response status and `data.detail` alone, with the
402 branch producing the daily-limit upgrade message and the 413 branch the
20MB message; it never resolves with a partial result. -/
theorem c10_analyzeVideo :
    (∀ (α : Type) (o : HttpOutcome α) (v : α),
        analyzeVideo o = .ok v ↔ o = .success 200 v)
    ∧ (∀ (α : Type) (s : ℕ) (d : Option String),
        ∃ m, analyzeVideo (HttpOutcome.errorResponse s d : HttpOutcome α) = .error m)
    ∧ (∀ (α : Type) (d : Option String),
        analyzeVideo (HttpOutcome.errorResponse 402 d : HttpOutcome α) =
          .error "You have reached your daily limit. Please upgrade to Pro for unlimited analyses.")
    ∧ (∀ (α : Type) (d : Option String),
        analyzeVideo (HttpOutcome.errorResponse 413 d : HttpOutcome α) =
          .error "Video file is too large. Please upload a file smaller than 20MB.") := by
  refine ⟨?_, ?_, ?_, ?_⟩
  · intro α o v
    cases o with
    | success s d =>
        simp only [analyzeVideo]
        split_ifs with h
        · subst h; simp
        · simp [h]
    | errorResponse s d => simp only [analyzeVideo]; split_ifs <;> simp
    | errorRequest => simp [analyzeVideo]
    | errorSetup m => simp [analyzeVideo]
  · intro α s d
    simp only [analyzeVideo]
    split_ifs <;> exact ⟨_, rfl⟩
  · intro α d; simp [analyzeVideo]
  · intro α d; simp [analyzeVideo]

/-!
### Part 2: the analysis core

The repository contains no implementation of the `/api/analyze` computation
(the spec notes the pose/scoring logic lives behind external AI calls), so the
core below — data model, keypoint-stream normalizer, joint-angle extractor,
rep-segmentation state machine, form-risk evaluator and orchestrator — is
modelled from the spec, sections 3–4, component by component.
-/

/-- Modelled from the spec (§3): a body landmark name.  The enumerated set
covers the joint triples used by the configured exercises. -/
inductive Landmark where
  | shoulder | hip | knee | ankle | elbow | wrist
deriving DecidableEq

/-- Modelled from the spec (§3): a keypoint, a 2D position plus a confidence
in `[0, 1]`. -/
structure Keypoint where
  x : ℚ
  y : ℚ
  conf : ℚ
deriving DecidableEq

/-- Modelled from the spec (§3): a frame, a timestamp plus a mapping from
landmark name to optional keypoint (`none` = landmark missing). -/
structure Frame where
  t : ℚ
  shoulder : Option Keypoint
  hip : Option Keypoint
  knee : Option Keypoint
  ankle : Option Keypoint
  elbow : Option Keypoint
  wrist : Option Keypoint
deriving DecidableEq

/-- Look a landmark up in a frame. -/
def Frame.get (f : Frame) : Landmark → Option Keypoint
  | .shoulder => f.shoulder
  | .hip => f.hip
  | .knee => f.knee
  | .ankle => f.ankle
  | .elbow => f.elbow
  | .wrist => f.wrist

/-- Modelled from the spec (§4.1): the normalizer's configuration — confidence
threshold (default 0.5), maximum interpolatable gap length (default 5 frames)
and minimum fraction of frames that must carry the required landmarks
(default 60%). -/
structure NormConfig where
  confThreshold : ℚ
  maxGap : ℕ
  minValidFrac : ℚ
deriving DecidableEq

/-- The spec's default normalizer configuration. -/
def defaultNormConfig : NormConfig := ⟨1 / 2, 5, 3 / 5⟩

/-- Modelled from the spec (§4.1): drop a keypoint whose confidence is below
the threshold, marking it missing rather than zero. -/
def dropKp (threshold : ℚ) (k : Option Keypoint) : Option Keypoint :=
  match k with
  | none => none
  | some p => if p.conf < threshold then none else some p

/-- Confidence filtering applied to every landmark of a frame. -/
def dropFrame (threshold : ℚ) (f : Frame) : Frame :=
  ⟨f.t, dropKp threshold f.shoulder, dropKp threshold f.hip, dropKp threshold f.knee,
    dropKp threshold f.ankle, dropKp threshold f.elbow, dropKp threshold f.wrist⟩

/-- Confidence filtering applied to the whole stream. -/
def dropLow (threshold : ℚ) (fs : List Frame) : List Frame := fs.map (dropFrame threshold)

/-- The index of the last valid sample strictly before position `i` of a
validity pattern, if any. -/
def lastValidBefore (p : List Bool) : ℕ → Option ℕ
  | 0 => none
  | i + 1 => if p.getD i false then some i else lastValidBefore p i

/-- The index of the first valid sample at or after position `j` of a validity
pattern, if any. -/
def firstValidFrom : List Bool → ℕ → Option ℕ
  | [], _ => none
  | b :: bs, 0 => if b then some 0 else (firstValidFrom bs 0).map (· + 1)
  | _ :: bs, j + 1 => (firstValidFrom bs j).map (· + 1)

/-- The validity pattern of one landmark's per-frame series. -/
def pat (s : List (Option Keypoint)) : List Bool := s.map Option.isSome

/-- Modelled from the spec (§4.1): whether the missing sample at position `i`
may be filled — it needs a nearest valid neighbour `l` on the left and `r` on
the right with gap length `r - l - 1` at most `maxGap`.  The decision depends
only on the validity pattern. -/
def fillDecision (p : List Bool) (maxGap i : ℕ) : Option (ℕ × ℕ) :=
  match lastValidBefore p i, firstValidFrom p (i + 1) with
  | some l, some r => if r - l - 1 ≤ maxGap then some (l, r) else none
  | _, _ => none

/-- Linear interpolation of positions between the two neighbouring keypoints;
the interpolated confidence is the smaller neighbour confidence. -/
def interpKp (kl kr : Keypoint) (l r i : ℕ) : Keypoint :=
  ⟨kl.x + (kr.x - kl.x) * (((i : ℚ) - (l : ℚ)) / ((r : ℚ) - (l : ℚ))),
   kl.y + (kr.y - kl.y) * (((i : ℚ) - (l : ℚ)) / ((r : ℚ) - (l : ℚ))),
   min kl.conf kr.conf⟩

/-- Modelled from the spec (§4.1): the gap-filled value of one landmark's
series at position `i` — valid samples are kept, short interior gaps are
linearly interpolated between the nearest valid neighbours, longer gaps and
edge gaps stay missing. -/
def fillAt (s : List (Option Keypoint)) (maxGap i : ℕ) : Option Keypoint :=
  match s.getD i none with
  | some k => some k
  | none =>
      match fillDecision (pat s) maxGap i with
      | none => none
      | some (l, r) =>
          match s.getD l none, s.getD r none with
          | some kl, some kr => some (interpKp kl kr l r i)
          | _, _ => none

/-- Gap filling over a whole series. -/
def fillSeries (maxGap : ℕ) (s : List (Option Keypoint)) : List (Option Keypoint) :=
  (List.range s.length).map (fillAt s maxGap)

/-- The frame at index `i`, with an all-missing placeholder out of range. -/
def frameAt (fs : List Frame) (i : ℕ) : Frame :=
  fs.getD i ⟨0, none, none, none, none, none, none⟩

/-- One landmark's column of the stream: its per-frame series. -/
def col (l : Landmark) (fs : List Frame) : List (Option Keypoint) :=
  fs.map (fun f => f.get l)

/-- Gap filling applied landmark-wise over the whole stream; timestamps are
kept. -/
def fillFrames (maxGap : ℕ) (fs : List Frame) : List Frame :=
  (List.range fs.length).map (fun i =>
    ⟨(frameAt fs i).t,
     fillAt (col Landmark.shoulder fs) maxGap i,
     fillAt (col Landmark.hip fs) maxGap i,
     fillAt (col Landmark.knee fs) maxGap i,
     fillAt (col Landmark.ankle fs) maxGap i,
     fillAt (col Landmark.elbow fs) maxGap i,
     fillAt (col Landmark.wrist fs) maxGap i⟩)

/-- Modelled from the spec (§4.1): the body-relative scale reference, the
hip-to-shoulder distance (taken in the taxicab metric so the computation stays
in exact rational arithmetic). -/
def taxiDist (a b : Keypoint) : ℚ := |a.x - b.x| + |a.y - b.y|

/-- Scale a keypoint's coordinates by `1 / d`; confidence is unchanged. -/
def scaleKp (d : ℚ) (k : Keypoint) : Keypoint := ⟨k.x / d, k.y / d, k.conf⟩

/-- Modelled from the spec (§4.1): rescale a frame's coordinates to a
body-relative scale by dividing by the hip-to-shoulder distance; frames where
hip or shoulder is missing, or where the distance is zero, are left
unchanged. -/
def rescaleFrame (f : Frame) : Frame :=
  match f.hip, f.shoulder with
  | some h, some s =>
      if taxiDist h s = 0 then f
      else
        ⟨f.t, f.shoulder.map (scaleKp (taxiDist h s)), f.hip.map (scaleKp (taxiDist h s)),
         f.knee.map (scaleKp (taxiDist h s)), f.ankle.map (scaleKp (taxiDist h s)),
         f.elbow.map (scaleKp (taxiDist h s)), f.wrist.map (scaleKp (taxiDist h s))⟩
  | _, _ => f

/-- Rescaling applied to the whole stream. -/
def rescaleFrames (fs : List Frame) : List Frame := fs.map rescaleFrame

/-- Modelled from the spec (§7): the error taxonomy of the analysis core. -/
inductive AnalysisError where
  | insufficientKeypoints
  | unsupportedExercise
  | unrecognizedExercise
  | insufficientMotion
deriving DecidableEq

/-- Whether a frame carries every landmark required for the exercise. -/
def hasRequired (req : List Landmark) (f : Frame) : Bool :=
  req.all (fun l => (f.get l).isSome)

/-- The normalizer's processing pipeline: confidence filtering, then gap
filling, then body-relative rescaling. -/
def pipeline (cfg : NormConfig) (fs : List Frame) : List Frame :=
  rescaleFrames (fillFrames cfg.maxGap (dropLow cfg.confThreshold fs))

/-- Modelled from the spec (§4.1): `normalize` — confidence filtering, then
gap filling, then body-relative rescaling; fails with
`InsufficientKeypoints` when fewer than the minimum fraction of frames carry
the landmarks required for the exercise.  The input is never mutated. -/
def normalize (cfg : NormConfig) (req : List Landmark) (fs : List Frame) :
    Except AnalysisError (List Frame) :=
  if (cfg.minValidFrac * ((pipeline cfg fs).length : ℚ) : ℚ) ≤
      ((pipeline cfg fs).countP (hasRequired req) : ℚ) then
    Except.ok (pipeline cfg fs)
  else Except.error AnalysisError.insufficientKeypoints

/-! ### Joint angle extractor (spec §4.2) -/

/-- Modelled from the spec (§3): one sample of an angle series — timestamp,
angle in degrees and a validity flag (frames with a missing required landmark
produce an explicitly flagged invalid sample, never a silent zero). -/
structure Sample where
  t : ℚ
  angle : ℚ
  valid : Bool
deriving DecidableEq

/-- Modelled from the spec (§3): a named joint-angle time series. -/
structure AngleSeries where
  name : String
  samples : List Sample
deriving DecidableEq

/-- Difference vector of two keypoints. -/
def vsub (a b : Keypoint) : ℚ × ℚ := (a.x - b.x, a.y - b.y)

/-- Dot product in the plane. -/
def dot2 (u v : ℚ × ℚ) : ℚ := u.1 * v.1 + u.2 * v.2

/-- Squared Euclidean norm in the plane. -/
def sqnorm (u : ℚ × ℚ) : ℚ := u.1 * u.1 + u.2 * u.2

/-- Modelled from the spec (§4.2): the angle between two vectors in degrees in
`[0, 180]`.  The spec's `arccos(dot / (‖u‖ ‖v‖))` is transcendental; it is
replaced by the monotone rational surrogate
`90 * (1 - dot * |dot| / (‖u‖² ‖v‖²))`, which agrees with the arc-cosine at
cosine values `-1`, `0` and `1`, is strictly decreasing in the cosine, and by
the Cauchy-Schwarz inequality always lands in `[0, 180]`. -/
def angleDeg (u v : ℚ × ℚ) : ℚ :=
  90 * (1 - dot2 u v * |dot2 u v| / (sqnorm u * sqnorm v))

/-- The angle at vertex `b` formed by `a` and `c`; degenerate (zero-length)
vectors make the sample invalid. -/
def jointAngle (a b c : Keypoint) : Option ℚ :=
  if sqnorm (vsub a b) = 0 ∨ sqnorm (vsub c b) = 0 then none
  else some (angleDeg (vsub a b) (vsub c b))

/-- The angle of a landmark triple in one frame, `none` when any of the three
landmarks is missing. -/
def tripleAngle (f : Frame) (la lb lc : Landmark) : Option ℚ :=
  match f.get la, f.get lb, f.get lc with
  | some a, some b, some c => jointAngle a b c
  | _, _, _ => none

/-- One angle sample per frame; missing landmarks yield a flagged invalid
sample. -/
def sampleFor (f : Frame) (la lb lc : Landmark) : Sample :=
  match tripleAngle f la lb lc with
  | some d => ⟨f.t, d, true⟩
  | none => ⟨f.t, 0, false⟩

/-- The angle series of one landmark triple over the stream. -/
def seriesFor (nm : String) (la lb lc : Landmark) (fs : List Frame) : AngleSeries :=
  ⟨nm, fs.map (fun f => sampleFor f la lb lc)⟩

/-- Modelled from the spec (§4.2): a named joint triple of an exercise's angle
list. -/
structure AngleSpec where
  name : String
  first : Landmark
  vertex : Landmark
  last : Landmark
deriving DecidableEq

/-- Modelled from the spec (§4.2): `extractAngles` — one series per configured
joint triple.  Deterministic, stateless, total (failures of earlier stages are
signalled by the normalizer, invalid frames by flagged samples). -/
def extractAngles (specs : List AngleSpec) (fs : List Frame) : List AngleSeries :=
  specs.map (fun a => seriesFor a.name a.first a.vertex a.last fs)

/-! ### Rep segmentation state machine (spec §4.3) -/

/-- Modelled from the spec (§3): one repetition — a time interval with its
sample-index endpoints and the trough/peak angle values observed inside it.
Immutable once emitted. -/
structure Rep where
  startIdx : ℕ
  endIdx : ℕ
  startT : ℚ
  endT : ℚ
  trough : ℚ
  peak : ℚ
deriving DecidableEq

/-- Modelled from the spec (§4.3): segmentation thresholds — descent
threshold, exercise-specific depth threshold, debounce count `K` (default 3)
and invalid-run tolerance (default 10). -/
structure SegConfig where
  descentThreshold : ℚ
  depthThreshold : ℚ
  debounce : ℕ
  invalidTolerance : ℕ
deriving DecidableEq

/-- Modelled from the spec (§4.3): the machine states
`WaitingForStart → Descending → Bottom → Ascending`.  `waiting` tracks whether
an above-threshold sample has been seen (the descent must cross from above)
and the pending sustained below-threshold run with its start index/time;
`descending` tracks the previous angle for local-minimum detection;
`bottom` tracks the sustained above-depth run. -/
inductive Phase where
  | waiting (sawAbove : Bool) (runStart : Option (ℕ × ℚ)) (belowRun : ℕ)
  | descending (start : ℕ × ℚ) (prev : ℚ) (trough : ℚ) (peak : ℚ)
  | bottom (start : ℕ × ℚ) (trough : ℚ) (peak : ℚ) (aboveRun : ℕ)
  | ascending (start : ℕ × ℚ) (trough : ℚ) (peak : ℚ)
deriving DecidableEq

/-- The full segmentation state: phase, current invalid-run length and the
reps emitted so far (in order). -/
structure SegState where
  phase : Phase
  invalidRun : ℕ
  reps : List Rep
deriving DecidableEq

/-- The machine's initial state. -/
def segInit : SegState := ⟨Phase.waiting false none 0, 0, []⟩

/-- Modelled from the spec (§4.3): one transition of the rep segmentation
machine on the indexed sample `(i, s)`.  Invalid samples are skipped for
transition decisions and do not reset the phase unless the invalid run exceeds
the tolerance, in which case the in-progress rep is aborted (discarded, not
emitted).  A closing crossing above the descent threshold emits the rep with
start at the entry to `Descending` and end at the crossing. -/
def segStep (cfg : SegConfig) (st : SegState) (is : ℕ × Sample) : SegState :=
  let i := is.1
  let s := is.2
  if s.valid = false then
    if cfg.invalidTolerance < st.invalidRun + 1 then
      ⟨Phase.waiting false none 0, 0, st.reps⟩
    else ⟨st.phase, st.invalidRun + 1, st.reps⟩
  else
    match st.phase with
    | .waiting sawAbove runStart belowRun =>
        if s.angle < cfg.descentThreshold then
          if sawAbove then
            if cfg.debounce ≤ belowRun + 1 then
              ⟨Phase.descending ((runStart.getD (i, s.t)).1, (runStart.getD (i, s.t)).2)
                s.angle s.angle s.angle, 0, st.reps⟩
            else ⟨Phase.waiting true (some (runStart.getD (i, s.t))) (belowRun + 1), 0, st.reps⟩
          else ⟨Phase.waiting false none 0, 0, st.reps⟩
        else ⟨Phase.waiting true none 0, 0, st.reps⟩
    | .descending start prev trough peak =>
        if s.angle < cfg.depthThreshold ∨ prev < s.angle then
          ⟨Phase.bottom start (min trough s.angle) (max peak s.angle) 0, 0, st.reps⟩
        else ⟨Phase.descending start s.angle (min trough s.angle) (max peak s.angle), 0, st.reps⟩
    | .bottom start trough peak aboveRun =>
        if cfg.depthThreshold < s.angle then
          if cfg.debounce ≤ aboveRun + 1 then
            ⟨Phase.ascending start (min trough s.angle) (max peak s.angle), 0, st.reps⟩
          else ⟨Phase.bottom start (min trough s.angle) (max peak s.angle) (aboveRun + 1),
            0, st.reps⟩
        else ⟨Phase.bottom start (min trough s.angle) (max peak s.angle) 0, 0, st.reps⟩
    | .ascending start trough peak =>
        if cfg.descentThreshold < s.angle then
          ⟨Phase.waiting true none 0, 0,
            st.reps ++ [⟨start.1, i, start.2, s.t, min trough s.angle, max peak s.angle⟩]⟩
        else ⟨Phase.ascending start (min trough s.angle) (max peak s.angle), 0, st.reps⟩

/-- Run the state machine over the samples, threading the sample index. -/
def segRun (cfg : SegConfig) : SegState → ℕ → List Sample → SegState
  | st, _, [] => st
  | st, i, s :: rest => segRun cfg (segStep cfg st (i, s)) (i + 1) rest

/-- Modelled from the spec (§4.3): `segmentReps` — run the state machine over
the indexed samples of the primary angle series; a stream ending mid-rep
discards the partial rep. -/
def segmentReps (series : AngleSeries) (cfg : SegConfig) : List Rep :=
  (segRun cfg segInit 0 series.samples).reps

/-! ### Form risk evaluator (spec §4.4) -/

/-- Modelled from the spec (§4.4): one biomechanical rule — a risk label, its
fixed correction string, a severity weight and a check that reads the angle
series restricted to a rep. -/
structure RiskRule where
  label : String
  correction : String
  weight : ℚ
  check : Rep → (String → Option AngleSeries) → Bool

/-- Modelled from the spec (§4.4): a qualifying finding — label, correction,
severity weight and the number of reps it was flagged in. -/
structure Finding where
  label : String
  correction : String
  weight : ℚ
  freq : ℕ
deriving DecidableEq

/-- Modelled from the spec (§4.4 and §4.5): the per-exercise immutable
configuration table — required landmarks, joint triples, primary series name,
segmentation thresholds, rule list and the qualifying rep fraction
(default 30%). -/
structure ExerciseConfig where
  exLabel : String
  required : List Landmark
  angles : List AngleSpec
  primaryName : String
  seg : SegConfig
  rules : List RiskRule
  qualifyFrac : ℚ

/-- Find an angle series by name. -/
def lookupSeries (ss : List AngleSeries) (nm : String) : Option AngleSeries :=
  ss.find? (fun s => decide (s.name = nm))

/-- The primary angle series for segmentation (empty when absent). -/
def primaryOf (cfg : ExerciseConfig) (ss : List AngleSeries) : AngleSeries :=
  (lookupSeries ss cfg.primaryName).getD ⟨cfg.primaryName, []⟩

/-- Rounding to one decimal place. -/
def round1 (q : ℚ) : ℚ := (round (q * 10) : ℚ) / 10

/-- The number of reps a rule flags. -/
def flagCount (rule : RiskRule) (reps : List Rep) (ss : List AngleSeries) : ℕ :=
  reps.countP (fun rep => rule.check rep (lookupSeries ss))

/-- Modelled from the spec (§4.4): whether a rule's flagged-rep count exceeds
the qualifying fraction of all reps. -/
def qualifies (qf : ℚ) (rule : RiskRule) (reps : List Rep)
    (ss : List AngleSeries) : Prop :=
  qf * (reps.length : ℚ) < ((flagCount rule reps ss : ℕ) : ℚ)

instance (qf : ℚ) (rule : RiskRule) (reps : List Rep) (ss : List AngleSeries) :
    Decidable (qualifies qf rule reps ss) := by
  unfold qualifies
  infer_instance

/-- Modelled from the spec (§4.4): the findings whose flagged-rep count
exceeds the qualifying fraction of all reps, one per rule, in rule order. -/
def qualifyingFindings (qf : ℚ) (rules : List RiskRule) (reps : List Rep)
    (ss : List AngleSeries) : List Finding :=
  rules.filterMap (fun rule =>
    if qualifies qf rule reps ss then
      some ⟨rule.label, rule.correction, rule.weight, flagCount rule reps ss⟩
    else none)

/-- Ranking order for findings: frequency descending, then severity weight
descending. -/
def rankGE (a b : Finding) : Bool :=
  b.freq < a.freq || (a.freq == b.freq && decide (b.weight ≤ a.weight))

/-- Modelled from the spec (§4.4): `evaluate` — aggregate per-rep flags across
all reps, keep the findings flagged in more than the qualifying fraction of
reps, rank them by (frequency desc, severity desc) and retain the top two
distinct labels paired 1:1 with their fixed correction strings; the score
starts at 10.0, subtracts each qualifying rule's severity weight once (not per
rep), is floored at 1.0 and rounded to one decimal.  The rule tables below
give each rule a distinct label, so label deduplication is a no-op. -/
def evaluate (cfg : ExerciseConfig) (reps : List Rep) (ss : List AngleSeries) :
    ℚ × List Finding :=
  (round1 (max 1 (10 -
      ((qualifyingFindings cfg.qualifyFrac cfg.rules reps ss).map Finding.weight).sum)),
    ((qualifyingFindings cfg.qualifyFrac cfg.rules reps ss).mergeSort rankGE).take 2)

/-! ### Exercise rule tables (spec §4.4, §8) -/

/-- Whether any valid sample of the named series inside the rep's time
interval satisfies the predicate `angle < bound`. -/
def anyBelowWithin (nm : String) (bound : ℚ) (rep : Rep)
    (lookup : String → Option AngleSeries) : Bool :=
  match lookup nm with
  | none => false
  | some ser => ser.samples.any (fun s =>
      if rep.startT ≤ s.t ∧ s.t ≤ rep.endT ∧ s.angle < bound then s.valid else false)

/-- Squat rules: insufficient depth (trough knee angle stays above the
parallel threshold) and excessive forward torso lean. -/
def squatRules : List RiskRule :=
  [⟨"insufficient depth", "Squat deeper until your hips reach parallel.", 2,
      fun rep _ => if 100 < rep.trough then true else false⟩,
   ⟨"excessive forward lean", "Keep your chest up and torso more upright.", 3 / 2,
      fun rep lookup => anyBelowWithin "torso-lean" 120 rep lookup⟩]

/-- Pushup rules: partial range of motion and sagging hips. -/
def pushupRules : List RiskRule :=
  [⟨"partial range of motion", "Lower your chest further toward the floor.", 2,
      fun rep _ => if 110 < rep.trough then true else false⟩,
   ⟨"sagging hips", "Brace your core to keep a straight body line.", 3 / 2,
      fun rep lookup => anyBelowWithin "body-line" 150 rep lookup⟩]

/-- The squat configuration table. -/
def squatConfig : ExerciseConfig :=
  ⟨"squat", [.shoulder, .hip, .knee, .ankle],
   [⟨"knee-flexion", .hip, .knee, .ankle⟩, ⟨"torso-lean", .shoulder, .hip, .knee⟩],
   "knee-flexion", ⟨100, 80, 3, 10⟩, squatRules, 3 / 10⟩

/-- The pushup configuration table. -/
def pushupConfig : ExerciseConfig :=
  ⟨"pushup", [.shoulder, .elbow, .wrist, .hip],
   [⟨"elbow-flexion", .shoulder, .elbow, .wrist⟩, ⟨"body-line", .shoulder, .hip, .knee⟩],
   "elbow-flexion", ⟨120, 90, 3, 10⟩, pushupRules, 3 / 10⟩

/-- Modelled from the spec (§4.4, §8): the supported exercise enumeration;
`deadlift` is requestable but has no configured rule set, so it signals
`UnsupportedExercise` (spec §8 scenario). -/
inductive Exercise where
  | squat | pushup | deadlift
deriving DecidableEq

/-- The immutable exercise-to-configuration table (spec §9: a data change, not
a code change). -/
def exerciseConfig : Exercise → Option ExerciseConfig
  | .squat => some squatConfig
  | .pushup => some pushupConfig
  | .deadlift => none

/-! ### Analysis orchestrator (spec §4.5) -/

/-- Modelled from the spec (§4.5): the heuristic exercise classifier used when
no hint is given is explicitly out of scope; it is modelled as the pluggable
strategy that returns `Unknown` (`none`), so hint-less calls fail with
`UnrecognizedExercise` as specified. -/
def classifyExercise (_fs : List Frame) : Option Exercise := none

/-- Modelled from the spec (§4.5, §6): `analyze` — resolve the exercise, look
up its rule configuration, normalize, extract angles, segment reps
(signalling `InsufficientMotion` when no rep is segmented, so no score is
fabricated) and evaluate, short-circuiting to the corresponding failure
condition at the first stage that fails. -/
def analyze (fs : List Frame) (hint : Option Exercise) :
    Except AnalysisError AnalysisResult :=
  match hint.orElse (fun _ => classifyExercise fs) with
  | none => Except.error AnalysisError.unrecognizedExercise
  | some ex =>
      match exerciseConfig ex with
      | none => Except.error AnalysisError.unsupportedExercise
      | some cfg =>
          match normalize defaultNormConfig cfg.required fs with
          | Except.error e => Except.error e
          | Except.ok gs =>
              let ss := extractAngles cfg.angles gs
              let reps := segmentReps (primaryOf cfg ss) cfg.seg
              if reps.isEmpty then Except.error AnalysisError.insufficientMotion
              else
                Except.ok ⟨cfg.exLabel, (evaluate cfg reps ss).1,
                  ((evaluate cfg reps ss).2).map Finding.label,
                  ((evaluate cfg reps ss).2).map Finding.correction,
                  reps.length⟩

/-! ### Theorems for the analysis-core claims -/

/-- C5: `analyze` is a pure function of the frame sequence and exercise hint —
two runs on identical input produce identical results; there is no hidden
state or I/O in the model. -/
theorem c5_analyze_deterministic :
    ∀ (fs1 fs2 : List Frame) (h1 h2 : Option Exercise),
      fs1 = fs2 → h1 = h2 → analyze fs1 h1 = analyze fs2 h2 := by
  intro fs1 fs2 h1 h2 hf hh
  rw [hf, hh]

/-- C5 witness: the theorem applied at a concrete input. -/
theorem c5_analyze_deterministic_witness :
    analyze [] (some Exercise.squat) = analyze [] (some Exercise.squat) :=
  c5_analyze_deterministic [] [] (some Exercise.squat) (some Exercise.squat) rfl rfl

/-- C1: every successful `analyze` result has `risks` and `corrections` of the
same length, and that length is at most 2. -/
theorem c1_risks_corrections_length :
    ∀ (fs : List Frame) (hint : Option Exercise) (r : AnalysisResult),
      analyze fs hint = Except.ok r →
        r.risks.length = r.corrections.length ∧ r.risks.length ≤ 2 := by
  intro fs hint r h
  unfold analyze at h
  split at h
  · exact absurd h (by simp)
  · split at h
    · exact absurd h (by simp)
    · split at h
      · exact absurd h (by simp)
      · dsimp only at h
        split at h
        · exact absurd h (by simp)
        · injection h with h
          subst h
          refine ⟨by simp, ?_⟩
          simp only [evaluate, List.length_map, List.length_take]
          exact min_le_left _ _

/-- Every serialized `AnalysisResult` has the frontend record shape. -/
theorem serializeResult_matches (r : AnalysisResult) :
    matchesFrontendContract (serializeResult r) = true := by
  simp only [serializeResult, matchesFrontendContract, Bool.and_eq_true]
  refine ⟨⟨⟨⟨rfl, rfl⟩, ?_⟩, ?_⟩, ?_⟩
  · simp [isStrArr, isStr, List.all_map, Function.comp]
  · simp [isStrArr, isStr, List.all_map, Function.comp]
  · simp [isIntNum]

/-- C2: every successful `AnalysisResult` serializes to exactly the JSON shape
`{exercise: string, score: number, risks: string[], corrections: string[],
rep_count: integer}` that the frontend contracts against — no extra, missing,
or differently-typed fields. -/
theorem c2_serialized_shape :
    ∀ (fs : List Frame) (hint : Option Exercise) (r : AnalysisResult),
      analyze fs hint = Except.ok r →
        matchesFrontendContract (serializeResult r) = true :=
  fun _ _ r _ => serializeResult_matches r

/-- C3: when the exercise is resolved and configured, normalization succeeds
and angle extraction runs, but zero reps are segmented, `analyze` returns the
`InsufficientMotion` error condition — an `Except.error`, which carries no
`AnalysisResult` and hence no score value. -/
theorem c3_zero_reps_insufficient_motion :
    ∀ (fs : List Frame) (hint : Option Exercise) (ex : Exercise)
      (cfg : ExerciseConfig) (gs : List Frame),
      hint.orElse (fun _ => classifyExercise fs) = some ex →
      exerciseConfig ex = some cfg →
      normalize defaultNormConfig cfg.required fs = Except.ok gs →
      segmentReps (primaryOf cfg (extractAngles cfg.angles gs)) cfg.seg = [] →
      analyze fs hint = Except.error AnalysisError.insufficientMotion := by
  intro fs hint ex cfg gs hhint hcfg hnorm hseg
  unfold analyze
  simp only [hhint, hcfg, hnorm, hseg, List.isEmpty_nil, if_true]

/-- The spec's wording of the score (§4.4), stated directly over the rule
list: start at 10.0, subtract each qualifying rule's severity weight once (not
per rep), floor at 1.0, round to one decimal. -/
def specScore (qf : ℚ) (rules : List RiskRule) (reps : List Rep)
    (ss : List AngleSeries) : ℚ :=
  round1 (max 1 (10 -
    (rules.map (fun rule => if qualifies qf rule reps ss then rule.weight else 0)).sum))

/-- Unfolding `qualifyingFindings` over a cons cell. -/
theorem qualifyingFindings_cons (qf : ℚ) (r : RiskRule) (rs : List RiskRule)
    (reps : List Rep) (ss : List AngleSeries) :
    qualifyingFindings qf (r :: rs) reps ss =
      (if qualifies qf r reps ss then
        [⟨r.label, r.correction, r.weight, flagCount r reps ss⟩] else []) ++
        qualifyingFindings qf rs reps ss := by
  unfold qualifyingFindings
  rw [List.filterMap_cons]
  split_ifs with h <;> rfl

/-- The total severity weight of the qualifying findings equals the sum over
the rule list of each qualifying rule's weight. -/
theorem qualifyingFindings_weight_sum (qf : ℚ) (rules : List RiskRule)
    (reps : List Rep) (ss : List AngleSeries) :
    ((qualifyingFindings qf rules reps ss).map Finding.weight).sum =
      (rules.map (fun rule => if qualifies qf rule reps ss then rule.weight else 0)).sum := by
  induction rules with
  | nil => rfl
  | cons r rs ih =>
      rw [qualifyingFindings_cons, List.map_append, List.sum_append, ih,
        List.map_cons, List.sum_cons]
      split_ifs with h <;> simp

/-- `round1` maps `[1, 10]` into `[1, 10]`. -/
theorem round1_mem_unit_interval (x : ℚ) (h1 : 1 ≤ x) (h10 : x ≤ 10) :
    1 ≤ round1 x ∧ round1 x ≤ 10 := by
  unfold round1
  have hr1 : (10 : ℤ) ≤ round (x * 10) := by
    rw [round_eq]
    have hhalf : (21 : ℚ) / 2 ≤ x * 10 + 1 / 2 := by linarith
    calc (10 : ℤ) = ⌊(21 : ℚ) / 2⌋ := by norm_num
    _ ≤ ⌊x * 10 + 1 / 2⌋ := Int.floor_mono hhalf
  have hr2 : round (x * 10) ≤ (100 : ℤ) := by
    rw [round_eq]
    have hhalf : x * 10 + 1 / 2 ≤ (201 : ℚ) / 2 := by linarith
    calc ⌊x * 10 + 1 / 2⌋ ≤ ⌊(201 : ℚ) / 2⌋ := Int.floor_mono hhalf
    _ = 100 := by norm_num
  have hc1 : (10 : ℚ) ≤ ((round (x * 10) : ℤ) : ℚ) := by exact_mod_cast hr1
  have hc2 : ((round (x * 10) : ℤ) : ℚ) ≤ 100 := by exact_mod_cast hr2
  constructor <;> [linarith; linarith]

/-- Every rule of every configured exercise has a nonnegative severity
weight. -/
theorem ruleWeights_nonneg :
    ∀ (ex : Exercise) (cfg : ExerciseConfig), exerciseConfig ex = some cfg →
      ∀ rule ∈ cfg.rules, 0 ≤ rule.weight := by
  intro ex cfg hcfg rule hmem
  cases ex with
  | squat =>
      injection hcfg with h
      subst h
      simp only [squatConfig, squatRules, List.mem_cons, List.not_mem_nil, or_false] at hmem
      rcases hmem with rfl | rfl <;> norm_num
  | pushup =>
      injection hcfg with h
      subst h
      simp only [pushupConfig, pushupRules, List.mem_cons, List.not_mem_nil, or_false] at hmem
      rcases hmem with rfl | rfl <;> norm_num
  | deadlift => exact absurd hcfg (by simp [exerciseConfig])

/-- C4: for every rep/angle input to `evaluate` under a configured exercise,
the aggregate score equals 10.0 minus each qualifying finding's severity
weight counted once (not per rep), floored at 1.0 and rounded to one decimal —
and consequently every returned score lies in `[1, 10]`. -/
theorem c4_evaluate_score :
    ∀ (ex : Exercise) (cfg : ExerciseConfig) (reps : List Rep) (ss : List AngleSeries),
      exerciseConfig ex = some cfg →
        (evaluate cfg reps ss).1 = specScore cfg.qualifyFrac cfg.rules reps ss
        ∧ 1 ≤ (evaluate cfg reps ss).1 ∧ (evaluate cfg reps ss).1 ≤ 10 := by
  intro ex cfg reps ss hcfg
  have hsum := qualifyingFindings_weight_sum cfg.qualifyFrac cfg.rules reps ss
  have hw : ∀ rule ∈ cfg.rules, 0 ≤ rule.weight := ruleWeights_nonneg ex cfg hcfg
  have hT : 0 ≤ ((qualifyingFindings cfg.qualifyFrac cfg.rules reps ss).map
      Finding.weight).sum := by
    rw [hsum]
    apply List.sum_nonneg
    intro x hx
    simp only [List.mem_map] at hx
    obtain ⟨rule, hrule, rfl⟩ := hx
    split_ifs
    · exact hw rule hrule
    · exact le_refl 0
  have h1 : 1 ≤ max 1 (10 -
      ((qualifyingFindings cfg.qualifyFrac cfg.rules reps ss).map Finding.weight).sum) :=
    le_max_left _ _
  have h10 : max 1 (10 -
      ((qualifyingFindings cfg.qualifyFrac cfg.rules reps ss).map Finding.weight).sum) ≤ 10 :=
    max_le (by norm_num) (by linarith)
  have hbounds := round1_mem_unit_interval _ h1 h10
  refine ⟨?_, hbounds.1, hbounds.2⟩
  unfold evaluate specScore
  rw [hsum]

/-- C4 witness: the theorem applied to the squat configuration with a concrete
rep list and angle-series list, discharging the configuration hypothesis by
`rfl`. -/
theorem c4_evaluate_score_witness :
    (evaluate squatConfig [⟨1, 8, 1, 8, 120, 180⟩] []).1 =
        specScore squatConfig.qualifyFrac squatConfig.rules [⟨1, 8, 1, 8, 120, 180⟩] []
      ∧ 1 ≤ (evaluate squatConfig [⟨1, 8, 1, 8, 120, 180⟩] []).1
      ∧ (evaluate squatConfig [⟨1, 8, 1, 8, 120, 180⟩] []).1 ≤ 10 :=
  c4_evaluate_score Exercise.squat squatConfig [⟨1, 8, 1, 8, 120, 180⟩] [] rfl

/-! ### A concrete squat run through the whole pipeline

A nine-frame synthetic squat: one standing frame, four deep frames, four
standing frames.  The knee-flexion angle goes 180°, then 18° for four frames,
then back to 180°, driving the state machine through one full rep. -/

/-- A standing frame at time `t`: straight vertical body, all confidences 1. -/
def standingFrame (t : ℚ) : Frame :=
  ⟨t, some ⟨0, 1, 1⟩, some ⟨0, 0, 1⟩, some ⟨0, -1, 1⟩, some ⟨0, -2, 1⟩, none, none⟩

/-- A deep-squat frame at time `t`: the ankle is placed so the knee-flexion
surrogate angle is 18°. -/
def bottomFrame (t : ℚ) : Frame :=
  ⟨t, some ⟨0, 1, 1⟩, some ⟨0, 0, 1⟩, some ⟨0, -1, 1⟩, some ⟨1, 1, 1⟩, none, none⟩

/-- The nine-frame demo squat stream. -/
def demoFrames : List Frame :=
  [standingFrame 0, bottomFrame 1, bottomFrame 2, bottomFrame 3, bottomFrame 4,
   standingFrame 5, standingFrame 6, standingFrame 7, standingFrame 8]

/-- The single rep the machine segments from the demo stream. -/
def demoRep : Rep := ⟨1, 8, 1, 8, 18, 180⟩

/-- The analysis result of the demo stream. -/
def demoResult : AnalysisResult := ⟨"squat", 10, [], [], 1⟩

/-- The demo stream is already normalized: confidences pass the threshold,
there are no fillable gaps, and the hip-to-shoulder distance is 1. -/
theorem demoFrames_normalize :
    normalize defaultNormConfig squatConfig.required demoFrames =
      Except.ok demoFrames := by
  norm_num [normalize, pipeline, defaultNormConfig, squatConfig, demoFrames, standingFrame,
    bottomFrame, rescaleFrames, fillFrames, col, dropLow, dropFrame, dropKp, frameAt,
    fillAt, pat, fillDecision, lastValidBefore, firstValidFrom, interpKp,
    rescaleFrame, taxiDist, scaleKp, hasRequired, Frame.get, List.range_succ,
    List.countP_cons]

/-- The knee-flexion series extracted from the demo stream. -/
def demoKneeSeries : AngleSeries :=
  ⟨"knee-flexion",
   [⟨0, 180, true⟩, ⟨1, 18, true⟩, ⟨2, 18, true⟩, ⟨3, 18, true⟩, ⟨4, 18, true⟩,
    ⟨5, 180, true⟩, ⟨6, 180, true⟩, ⟨7, 180, true⟩, ⟨8, 180, true⟩]⟩

/-- The torso-lean series extracted from the demo stream. -/
def demoLeanSeries : AngleSeries :=
  ⟨"torso-lean",
   [⟨0, 180, true⟩, ⟨1, 180, true⟩, ⟨2, 180, true⟩, ⟨3, 180, true⟩, ⟨4, 180, true⟩,
    ⟨5, 180, true⟩, ⟨6, 180, true⟩, ⟨7, 180, true⟩, ⟨8, 180, true⟩]⟩

/-- Angle extraction on the demo stream. -/
theorem demoFrames_extract :
    extractAngles squatConfig.angles demoFrames = [demoKneeSeries, demoLeanSeries] := by
  norm_num [extractAngles, squatConfig, seriesFor, sampleFor, tripleAngle, Frame.get,
    jointAngle, vsub, dot2, sqnorm, angleDeg, demoFrames, standingFrame, bottomFrame,
    demoKneeSeries, demoLeanSeries]

/-- The primary series of the demo stream is the knee-flexion series. -/
theorem demoFrames_primary :
    primaryOf squatConfig [demoKneeSeries, demoLeanSeries] = demoKneeSeries := by
  have h1 : (decide ("knee-flexion" = "knee-flexion")) = true := by decide
  norm_num [primaryOf, lookupSeries, squatConfig, demoKneeSeries, demoLeanSeries,
    List.find?, h1]

/-- The machine segments exactly one rep from the demo knee-flexion series. -/
theorem demoKnee_segment :
    segmentReps demoKneeSeries squatConfig.seg = [demoRep] := by
  norm_num [segmentReps, demoKneeSeries, squatConfig, segRun, segStep, segInit,
    demoRep, min_def, max_def]

/-- Evaluation of the demo rep: no rule qualifies, so the score is 10 and no
findings are reported. -/
theorem demoRep_evaluate :
    evaluate squatConfig [demoRep] [demoKneeSeries, demoLeanSeries] = (10, []) := by
  have h1 : (decide ("knee-flexion" = "torso-lean")) = false := by decide
  have h2 : (decide ("torso-lean" = "torso-lean")) = true := by decide
  norm_num [evaluate, qualifyingFindings, qualifies, flagCount, lookupSeries,
    squatConfig, squatRules, anyBelowWithin, demoRep, demoKneeSeries, demoLeanSeries,
    round1, round_eq, List.countP_cons, List.find?, List.filterMap_cons, List.any_cons,
    List.any_nil, decide_eq_true_eq, h1, h2]

/-- The full pipeline on the demo stream: one rep, score 10, no risks. -/
theorem demoFrames_analyze :
    analyze demoFrames (some Exercise.squat) = Except.ok demoResult := by
  unfold analyze
  simp only [Option.orElse, exerciseConfig, demoFrames_normalize, demoFrames_extract,
    demoFrames_primary, demoKnee_segment, demoRep_evaluate]
  simp [demoResult, demoRep, squatConfig]

/-- C1 witness: the theorem applied to the demo squat stream, whose analysis
succeeds with the result `demoResult`. -/
theorem c1_risks_corrections_length_witness :
    demoResult.risks.length = demoResult.corrections.length ∧
      demoResult.risks.length ≤ 2 :=
  c1_risks_corrections_length demoFrames (some Exercise.squat) demoResult
    demoFrames_analyze

/-- C2 witness: the theorem applied to the demo squat stream's successful
result. -/
theorem c2_serialized_shape_witness :
    matchesFrontendContract (serializeResult demoResult) = true :=
  c2_serialized_shape demoFrames (some Exercise.squat) demoResult demoFrames_analyze

/-! ### A flat stream: valid landmarks but no motion -/

/-- Five standing frames — valid landmarks, flat knee angle. -/
def flatFrames : List Frame :=
  [standingFrame 0, standingFrame 1, standingFrame 2, standingFrame 3, standingFrame 4]

/-- The flat stream is already normalized. -/
theorem flatFrames_normalize :
    normalize defaultNormConfig squatConfig.required flatFrames =
      Except.ok flatFrames := by
  norm_num [normalize, pipeline, defaultNormConfig, squatConfig, flatFrames, standingFrame,
    rescaleFrames, fillFrames, col, dropLow, dropFrame, dropKp, frameAt,
    fillAt, pat, fillDecision, lastValidBefore, firstValidFrom, interpKp,
    rescaleFrame, taxiDist, scaleKp, hasRequired, Frame.get, List.range_succ,
    List.countP_cons]

/-- The knee-flexion series of the flat stream: constantly 180°. -/
def flatKneeSeries : AngleSeries :=
  ⟨"knee-flexion",
   [⟨0, 180, true⟩, ⟨1, 180, true⟩, ⟨2, 180, true⟩, ⟨3, 180, true⟩, ⟨4, 180, true⟩]⟩

/-- The torso-lean series of the flat stream: constantly 180°. -/
def flatLeanSeries : AngleSeries :=
  ⟨"torso-lean",
   [⟨0, 180, true⟩, ⟨1, 180, true⟩, ⟨2, 180, true⟩, ⟨3, 180, true⟩, ⟨4, 180, true⟩]⟩

/-- Angle extraction on the flat stream. -/
theorem flatFrames_extract :
    extractAngles squatConfig.angles flatFrames = [flatKneeSeries, flatLeanSeries] := by
  norm_num [extractAngles, squatConfig, seriesFor, sampleFor, tripleAngle, Frame.get,
    jointAngle, vsub, dot2, sqnorm, angleDeg, flatFrames, standingFrame,
    flatKneeSeries, flatLeanSeries]

/-- The primary series of the flat stream. -/
theorem flatFrames_primary :
    primaryOf squatConfig [flatKneeSeries, flatLeanSeries] = flatKneeSeries := by
  have h1 : (decide ("knee-flexion" = "knee-flexion")) = true := by decide
  norm_num [primaryOf, lookupSeries, squatConfig, flatKneeSeries, flatLeanSeries,
    List.find?, h1]

/-- The machine segments no rep from the flat series: the angle never crosses
below the descent threshold. -/
theorem flatKnee_segment :
    segmentReps flatKneeSeries squatConfig.seg = [] := by
  norm_num [segmentReps, flatKneeSeries, squatConfig, segRun, segStep, segInit]

/-- C3 witness: the theorem applied to the flat stream, discharging each stage
hypothesis by evaluation. -/
theorem c3_zero_reps_insufficient_motion_witness :
    analyze flatFrames (some Exercise.squat) =
      Except.error AnalysisError.insufficientMotion :=
  c3_zero_reps_insufficient_motion flatFrames (some Exercise.squat) Exercise.squat
    squatConfig flatFrames rfl rfl flatFrames_normalize
    (by rw [flatFrames_extract, flatFrames_primary]; exact flatKnee_segment)

/-! ### C6: emitted reps never overlap

The machine invariant: every emitted rep ends strictly before (in sample
index) and no later than (in time) the start recorded in the current phase,
the recorded start lies strictly before the next sample index and no later
than the running time bound, and the emitted reps are pairwise ordered. -/

/-- The rep-start (index, time) recorded in a phase, if any: a pending
below-run start while waiting, or the start of the in-progress rep. -/
def phaseStartVal : Phase → Option (ℕ × ℚ)
  | .waiting _ none _ => none
  | .waiting _ (some rs) _ => some rs
  | .descending rs _ _ _ => some rs
  | .bottom rs _ _ _ => some rs
  | .ascending rs _ _ => some rs

/-- The recorded start index, defaulting to the next sample index. -/
def pstartIdx (p : Phase) (i : ℕ) : ℕ := ((phaseStartVal p).map Prod.fst).getD i

/-- The recorded start time, defaulting to the running time bound. -/
def pstartT (p : Phase) (τ : ℚ) : ℚ := ((phaseStartVal p).map Prod.snd).getD τ

/-- Two reps overlap in time when their closed intervals share an interior
point. -/
def Rep.overlapsTime (a b : Rep) : Prop :=
  max a.startT b.startT < min a.endT b.endT

/-- The segmentation invariant, entering step `i` with all remaining sample
times at least `τ`. -/
def SegInv (i : ℕ) (τ : ℚ) (st : SegState) : Prop :=
  (∀ r ∈ st.reps, r.endIdx < pstartIdx st.phase i ∧ r.endT ≤ pstartT st.phase τ) ∧
  (∀ p, phaseStartVal st.phase = some p → p.1 < i ∧ p.2 ≤ τ) ∧
  List.Pairwise (fun a b => a.endIdx < b.startIdx ∧ a.endT ≤ b.startT) st.reps

/-- One machine step preserves the segmentation invariant. -/
theorem segStep_inv (cfg : SegConfig) (st : SegState) (i : ℕ) (τ : ℚ) (s : Sample)
    (hinv : SegInv i τ st) (hτ : τ ≤ s.t) :
    SegInv (i + 1) s.t (segStep cfg st (i, s)) := by
  obtain ⟨h2, h3, h4⟩ := hinv
  have hA : ∀ r ∈ st.reps, r.endIdx < i + 1 := by
    intro r hr
    have hend := (h2 r hr).1
    rcases hp : phaseStartVal st.phase with _ | p
    · rw [pstartIdx, hp] at hend
      simp at hend
      omega
    · have h3p := h3 p hp
      rw [pstartIdx, hp] at hend
      simp at hend
      omega
  have hB : ∀ r ∈ st.reps, r.endT ≤ s.t := by
    intro r hr
    have hend := (h2 r hr).2
    rcases hp : phaseStartVal st.phase with _ | p
    · rw [pstartT, hp] at hend
      simp at hend
      linarith
    · have h3p := h3 p hp
      rw [pstartT, hp] at hend
      simp at hend
      linarith
  have hC : ∀ p, phaseStartVal st.phase = some p → p.1 < i + 1 ∧ p.2 ≤ s.t := by
    intro p hp
    have h3p := h3 p hp
    exact ⟨by omega, by linarith⟩
  have hKeep : ∀ (q : ℕ × ℚ), phaseStartVal st.phase = some q →
      ∀ r ∈ st.reps, r.endIdx < q.1 ∧ r.endT ≤ q.2 := by
    intro q hq r hr
    have := h2 r hr
    rw [pstartIdx, pstartT, hq] at this
    simpa using this
  obtain ⟨ph, ir, reps⟩ := st
  dsimp only at hA hB hC hKeep h2 h3 h4
  unfold segStep
  dsimp only
  by_cases hv : s.valid = false
  · rw [if_pos hv]
    split_ifs with htol
    · exact ⟨fun r hr => ⟨hA r hr, hB r hr⟩,
        by intro p hp; exact absurd hp (by simp [phaseStartVal]), h4⟩
    · refine ⟨fun r hr => ?_, hC, h4⟩
      rcases hp : phaseStartVal ph with _ | p
      · rw [pstartIdx, pstartT, hp]
        simp only [Option.map, Option.getD]
        exact ⟨hA r hr, hB r hr⟩
      · rw [pstartIdx, pstartT, hp]
        simp only [Option.map, Option.getD]
        exact hKeep p hp r hr
  · rw [if_neg hv]
    cases ph with
    | waiting sawAbove runStart belowRun =>
        dsimp only
        split_ifs with hbelow habove hdeb
        · -- enter Descending: start is the pending run start (or this sample)
          refine ⟨fun r hr => ?_, fun p hp => ?_, h4⟩
          · cases runStart with
            | none =>
                have hOld := h2 r hr
                rw [pstartIdx, pstartT] at hOld
                simp only [phaseStartVal, Option.getD, Option.map] at hOld
                rw [pstartIdx, pstartT]
                simp only [phaseStartVal, Option.getD, Option.map]
                exact ⟨hOld.1, le_trans hOld.2 hτ⟩
            | some rs =>
                rw [pstartIdx, pstartT]
                simp only [phaseStartVal, Option.getD, Option.map]
                exact hKeep rs (by simp [phaseStartVal]) r hr
          · cases runStart with
            | none =>
                simp only [phaseStartVal, Option.getD] at hp
                injection hp with hp
                subst hp
                exact ⟨by omega, le_refl _⟩
            | some rs =>
                simp only [phaseStartVal, Option.getD] at hp
                injection hp with hp
                subst hp
                exact hC rs (by simp [phaseStartVal])
        · -- continue the pending below-run
          refine ⟨fun r hr => ?_, fun p hp => ?_, h4⟩
          · cases runStart with
            | none =>
                have hOld := h2 r hr
                rw [pstartIdx, pstartT] at hOld
                simp only [phaseStartVal, Option.getD, Option.map] at hOld
                rw [pstartIdx, pstartT]
                simp only [phaseStartVal, Option.getD, Option.map]
                exact ⟨hOld.1, le_trans hOld.2 hτ⟩
            | some rs =>
                rw [pstartIdx, pstartT]
                simp only [phaseStartVal, Option.getD, Option.map]
                exact hKeep rs (by simp [phaseStartVal]) r hr
          · cases runStart with
            | none =>
                simp only [phaseStartVal, Option.getD] at hp
                injection hp with hp
                subst hp
                exact ⟨by omega, le_refl _⟩
            | some rs =>
                simp only [phaseStartVal, Option.getD] at hp
                injection hp with hp
                subst hp
                exact hC rs (by simp [phaseStartVal])
        · -- below but never saw an above sample: stay idle
          exact ⟨fun r hr => (by
              rw [pstartIdx, pstartT]
              simp only [phaseStartVal, Option.getD, Option.map]
              exact ⟨hA r hr, hB r hr⟩),
            by intro p hp; exact absurd hp (by simp [phaseStartVal]), h4⟩
        · -- above the descent threshold: note the crossing
          exact ⟨fun r hr => (by
              rw [pstartIdx, pstartT]
              simp only [phaseStartVal, Option.getD, Option.map]
              exact ⟨hA r hr, hB r hr⟩),
            by intro p hp; exact absurd hp (by simp [phaseStartVal]), h4⟩
    | descending rs prev trough peak =>
        dsimp only
        have hq : phaseStartVal (Phase.descending rs prev trough peak) = some rs := by
          simp [phaseStartVal]
        split_ifs with hbot <;>
          exact ⟨fun r hr => (by
              rw [pstartIdx, pstartT]
              simp only [phaseStartVal, Option.getD, Option.map]
              exact hKeep rs hq r hr),
            fun p hp => (by
              simp only [phaseStartVal] at hp
              injection hp with hp
              subst hp
              exact hC rs hq), h4⟩
    | bottom rs trough peak aboveRun =>
        dsimp only
        have hq : phaseStartVal (Phase.bottom rs trough peak aboveRun) = some rs := by
          simp [phaseStartVal]
        split_ifs with hup hdeb <;>
          exact ⟨fun r hr => (by
              rw [pstartIdx, pstartT]
              simp only [phaseStartVal, Option.getD, Option.map]
              exact hKeep rs hq r hr),
            fun p hp => (by
              simp only [phaseStartVal] at hp
              injection hp with hp
              subst hp
              exact hC rs hq), h4⟩
    | ascending rs trough peak =>
        dsimp only
        have hq : phaseStartVal (Phase.ascending rs trough peak) = some rs := by
          simp [phaseStartVal]
        split_ifs with hclose
        · -- emit the rep
          refine ⟨fun r hr => ?_,
            by intro p hp; exact absurd hp (by simp [phaseStartVal]), ?_⟩
          · simp only [List.mem_append, List.mem_singleton] at hr
            rw [pstartIdx, pstartT]
            simp only [phaseStartVal, Option.getD, Option.map]
            rcases hr with hr | hr
            · exact ⟨hA r hr, hB r hr⟩
            · subst hr
              exact ⟨Nat.lt_succ_self i, le_refl s.t⟩
          · rw [List.pairwise_append]
            refine ⟨h4, List.pairwise_singleton _ _, ?_⟩
            intro a ha b hb
            simp only [List.mem_singleton] at hb
            subst hb
            exact hKeep rs hq a ha
        · exact ⟨fun r hr => (by
              rw [pstartIdx, pstartT]
              simp only [phaseStartVal, Option.getD, Option.map]
              exact hKeep rs hq r hr),
            fun p hp => (by
              simp only [phaseStartVal] at hp
              injection hp with hp
              subst hp
              exact hC rs hq), h4⟩

/-- Running the machine from an invariant state over samples whose times are
chained above the running bound yields pairwise-ordered reps. -/
theorem segRun_pairwise (cfg : SegConfig) :
    ∀ (xs : List Sample) (i : ℕ) (τ : ℚ) (st : SegState),
      SegInv i τ st → List.Chain (· ≤ ·) τ (xs.map Sample.t) →
      List.Pairwise (fun a b => a.endIdx < b.startIdx ∧ a.endT ≤ b.startT)
        (segRun cfg st i xs).reps := by
  intro xs
  induction xs with
  | nil =>
      intro i τ st hinv _
      exact hinv.2.2
  | cons x rest ih =>
      intro i τ st hinv hchain
      rw [List.map_cons, List.chain_cons] at hchain
      rw [segRun]
      exact ih (i + 1) x.t _ (segStep_inv cfg st i τ x hinv hchain.1) hchain.2

/-- C6: for every primary angle series with non-decreasing sample timestamps
and every configuration, no two reps emitted by `segmentReps` have overlapping
time intervals. -/
theorem c6_segmentReps_no_overlap :
    ∀ (series : AngleSeries) (cfg : SegConfig),
      List.Chain' (· ≤ ·) (series.samples.map Sample.t) →
      List.Pairwise (fun a b => ¬ Rep.overlapsTime a b) (segmentReps series cfg) := by
  intro series cfg hchain
  have hinit : ∀ τ : ℚ, SegInv 0 τ segInit := by
    intro τ
    refine ⟨?_, ?_, List.Pairwise.nil⟩
    · intro r hr
      exact absurd hr (List.not_mem_nil r)
    · intro p hp
      exact absurd hp (by simp [segInit, phaseStartVal])
  have key : List.Pairwise (fun a b => a.endIdx < b.startIdx ∧ a.endT ≤ b.startT)
      (segmentReps series cfg) := by
    unfold segmentReps
    cases hs : series.samples with
    | nil => simp [segRun, segInit]
    | cons x rest =>
        refine segRun_pairwise cfg (x :: rest) 0 x.t segInit (hinit x.t) ?_
        rw [hs] at hchain
        rw [List.map_cons, List.chain_cons]
        exact ⟨le_refl _, hchain⟩
  refine key.imp ?_
  intro a b hab
  unfold Rep.overlapsTime
  push_neg
  calc min a.endT b.endT ≤ a.endT := min_le_left _ _
  _ ≤ b.startT := hab.2
  _ ≤ max a.startT b.startT := le_max_right _ _

/-- C6 witness: the theorem applied to the demo knee-flexion series under the
squat segmentation configuration, discharging the timestamp-chain hypothesis
by evaluation. -/
theorem c6_segmentReps_no_overlap_witness :
    List.Pairwise (fun a b => ¬ Rep.overlapsTime a b)
      (segmentReps demoKneeSeries squatConfig.seg) :=
  c6_segmentReps_no_overlap demoKneeSeries squatConfig.seg
    (by norm_num [demoKneeSeries, List.chain'_cons])

/-! ### C7: idempotence of the normalizer

The proof goes component by component: confidence filtering is the identity on
streams whose keypoints all pass the threshold; gap filling is the identity on
streams whose validity patterns have no fillable position, and filling never
creates a fillable position; rescaling is idempotent frame-locally because the
rescaled hip-to-shoulder distance is 1. -/

/-- The validity pattern reads back the sample's presence. -/
theorem pat_getD (s : List (Option Keypoint)) (j : ℕ) :
    (pat s).getD j false = (s.getD j none).isSome :=
  List.getD_map s none Option.isSome

/-- The validity pattern preserves length. -/
theorem pat_length (s : List (Option Keypoint)) : (pat s).length = s.length :=
  List.length_map s Option.isSome

/-- A true pattern entry lies inside the list. -/
theorem lt_length_of_getD_true (p : List Bool) (j : ℕ)
    (h : p.getD j false = true) : j < p.length := by
  by_contra hj
  rw [List.getD_eq_default p false (by omega)] at h
  exact absurd h (by simp)

/-- `lastValidBefore` returns `none` exactly when every earlier entry is
false. -/
theorem lastValidBefore_eq_none_iff (p : List Bool) (i : ℕ) :
    lastValidBefore p i = none ↔ ∀ j, j < i → p.getD j false = false := by
  induction i with
  | zero => simp [lastValidBefore]
  | succ i ih =>
      unfold lastValidBefore
      by_cases h : p.getD i false = true
      · rw [if_pos h]
        constructor
        · intro hc
          exact absurd hc (by simp)
        · intro hall
          have := hall i (Nat.lt_succ_self i)
          rw [h] at this
          exact absurd this (by simp)
      · rw [if_neg h]
        rw [ih]
        have hfalse : p.getD i false = false := by simpa using h
        constructor
        · intro hall j hj
          rcases Nat.lt_succ_iff_lt_or_eq.mp hj with hj | rfl
          · exact hall j hj
          · exact hfalse
        · intro hall j hj
          exact hall j (Nat.lt_succ_of_lt hj)

/-- `lastValidBefore` returns `some l` exactly when `l` is the largest true
position before `i`. -/
theorem lastValidBefore_eq_some_iff (p : List Bool) (i l : ℕ) :
    lastValidBefore p i = some l ↔
      l < i ∧ p.getD l false = true ∧
        ∀ j, l < j → j < i → p.getD j false = false := by
  induction i with
  | zero => simp [lastValidBefore]
  | succ i ih =>
      unfold lastValidBefore
      by_cases h : p.getD i false = true
      · rw [if_pos h]
        constructor
        · intro hc
          injection hc with hc
          subst hc
          exact ⟨Nat.lt_succ_self _, h, fun j hj1 hj2 => absurd hj2 (by omega)⟩
        · rintro ⟨hl, hpl, hbet⟩
          by_cases hli : l = i
          · subst hli; rfl
          · have hlt : l < i := by omega
            have hcontr := hbet i hlt (Nat.lt_succ_self i)
            rw [hcontr] at h
            exact absurd h (by simp)
      · rw [if_neg h]
        rw [ih]
        have hfalse : p.getD i false = false := by simpa using h
        constructor
        · rintro ⟨hl, hpl, hbet⟩
          refine ⟨by omega, hpl, fun j hj1 hj2 => ?_⟩
          rcases Nat.lt_succ_iff_lt_or_eq.mp hj2 with hj | rfl
          · exact hbet j hj1 hj
          · exact hfalse
        · rintro ⟨hl, hpl, hbet⟩
          have hli : l ≠ i := by
            intro hli
            subst hli
            rw [hpl] at hfalse
            exact absurd hfalse (by simp)
          exact ⟨by omega, hpl, fun j hj1 hj2 => hbet j hj1 (by omega)⟩

/-- `firstValidFrom` returns `none` exactly when every entry from `j` on is
false. -/
theorem firstValidFrom_eq_none_iff :
    ∀ (p : List Bool) (j : ℕ),
      firstValidFrom p j = none ↔ ∀ k, j ≤ k → p.getD k false = false := by
  intro p
  induction p with
  | nil =>
      intro j
      constructor
      · intro _ k _
        rfl
      · intro _
        rfl
  | cons b bs ih =>
      intro j
      cases j with
      | zero =>
          unfold firstValidFrom
          by_cases hb : b = true
          · rw [if_pos hb]
            constructor
            · intro hc
              exact absurd hc (by simp)
            · intro hall
              have := hall 0 (le_refl 0)
              rw [List.getD_cons_zero, hb] at this
              exact absurd this (by simp)
          · rw [if_neg hb]
            have hbf : b = false := by simpa using hb
            constructor
            · intro hc k _
              have hnone : firstValidFrom bs 0 = none := by
                cases hfv : firstValidFrom bs 0 with
                | none => rfl
                | some r => rw [hfv] at hc; exact absurd hc (by simp)
              cases k with
              | zero => simpa [List.getD_cons_zero]
              | succ k =>
                  rw [List.getD_cons_succ]
                  exact (ih 0).mp hnone k (Nat.zero_le k)
            · intro hall
              have hnone : firstValidFrom bs 0 = none := by
                rw [ih 0]
                intro k _
                have := hall (k + 1) (Nat.zero_le _)
                rwa [List.getD_cons_succ] at this
              rw [hnone]
              rfl
      | succ j =>
          unfold firstValidFrom
          constructor
          · intro hc k hk
            have hnone : firstValidFrom bs j = none := by
              cases hfv : firstValidFrom bs j with
              | none => rfl
              | some r => rw [hfv] at hc; exact absurd hc (by simp)
            cases k with
            | zero => omega
            | succ k =>
                rw [List.getD_cons_succ]
                exact (ih j).mp hnone k (by omega)
          · intro hall
            have hnone : firstValidFrom bs j = none := by
              rw [ih j]
              intro k hk
              have := hall (k + 1) (by omega)
              rwa [List.getD_cons_succ] at this
            rw [hnone]
            rfl

/-- `firstValidFrom` returns `some r` exactly when `r` is the smallest true
position at or after `j`. -/
theorem firstValidFrom_eq_some_iff :
    ∀ (p : List Bool) (j r : ℕ),
      firstValidFrom p j = some r ↔
        j ≤ r ∧ p.getD r false = true ∧
          ∀ k, j ≤ k → k < r → p.getD k false = false := by
  intro p
  induction p with
  | nil =>
      intro j r
      constructor
      · intro hc
        exact absurd hc (by simp [firstValidFrom])
      · rintro ⟨_, hr, _⟩
        exact absurd hr (by simp [List.getD])
  | cons b bs ih =>
      intro j r
      cases j with
      | zero =>
          unfold firstValidFrom
          by_cases hb : b = true
          · rw [if_pos hb]
            constructor
            · intro hc
              injection hc with hc
              subst hc
              exact ⟨le_refl 0, by rwa [List.getD_cons_zero],
                fun k hk1 hk2 => absurd hk2 (by omega)⟩
            · rintro ⟨_, hr, hbet⟩
              cases r with
              | zero => rfl
              | succ r =>
                  have hcontr := hbet 0 (Nat.zero_le 0) (Nat.succ_pos r)
                  rw [List.getD_cons_zero, hb] at hcontr
                  exact absurd hcontr (by simp)
          · rw [if_neg hb]
            have hbf : b = false := by simpa using hb
            constructor
            · intro hc
              cases hfv : firstValidFrom bs 0 with
              | none => rw [hfv] at hc; exact absurd hc (by simp)
              | some q =>
                  rw [hfv] at hc
                  simp at hc
                  subst hc
                  obtain ⟨_, hq, hbet'⟩ := (ih 0 q).mp hfv
                  refine ⟨Nat.zero_le _, by rwa [List.getD_cons_succ],
                    fun k hk1 hk2 => ?_⟩
                  cases k with
                  | zero => rwa [List.getD_cons_zero]
                  | succ k =>
                      rw [List.getD_cons_succ]
                      exact hbet' k (Nat.zero_le _) (by omega)
            · rintro ⟨_, hr, hbet⟩
              cases r with
              | zero =>
                  rw [List.getD_cons_zero] at hr
                  rw [hr] at hbf
                  exact absurd hbf (by simp)
              | succ r =>
                  have hfv : firstValidFrom bs 0 = some r := by
                    rw [ih 0 r]
                    refine ⟨Nat.zero_le _, by rwa [List.getD_cons_succ] at hr,
                      fun k hk1 hk2 => ?_⟩
                    have := hbet (k + 1) (Nat.zero_le _) (by omega)
                    rwa [List.getD_cons_succ] at this
                  rw [hfv]
                  rfl
      | succ j =>
          unfold firstValidFrom
          constructor
          · intro hc
            cases hfv : firstValidFrom bs j with
            | none => rw [hfv] at hc; exact absurd hc (by simp)
            | some q =>
                rw [hfv] at hc
                simp at hc
                subst hc
                obtain ⟨hle, hq, hbet'⟩ := (ih j q).mp hfv
                refine ⟨by omega, by rwa [List.getD_cons_succ],
                  fun k hk1 hk2 => ?_⟩
                cases k with
                | zero => omega
                | succ k =>
                    rw [List.getD_cons_succ]
                    exact hbet' k (by omega) (by omega)
          · rintro ⟨hle, hr, hbet⟩
            cases r with
            | zero => omega
            | succ r =>
                have hfv : firstValidFrom bs j = some r := by
                  rw [ih j r]
                  refine ⟨by omega, by rwa [List.getD_cons_succ] at hr,
                    fun k hk1 hk2 => ?_⟩
                  have := hbet (k + 1) (by omega) (by omega)
                  rwa [List.getD_cons_succ] at this
                rw [hfv]
                rfl

/-- Valid samples are kept by filling. -/
theorem fillAt_of_some (s : List (Option Keypoint)) (m i : ℕ) (k : Keypoint)
    (h : s.getD i none = some k) : fillAt s m i = some k := by
  unfold fillAt
  rw [h]

/-- Inverting a successful fill decision. -/
theorem fillDecision_eq_some (p : List Bool) (m i l r : ℕ)
    (h : fillDecision p m i = some (l, r)) :
    lastValidBefore p i = some l ∧ firstValidFrom p (i + 1) = some r ∧
      r - l - 1 ≤ m := by
  unfold fillDecision at h
  cases hl : lastValidBefore p i with
  | none => rw [hl] at h; exact absurd h (by simp)
  | some a =>
      cases hr : firstValidFrom p (i + 1) with
      | none => rw [hl, hr] at h; exact absurd h (by simp)
      | some b =>
          rw [hl, hr] at h
          dsimp only at h
          split_ifs at h with hgap
          injection h with h
          rw [Prod.mk.injEq] at h
          obtain ⟨rfl, rfl⟩ := h
          exact ⟨rfl, rfl, hgap⟩

/-- No left neighbour means no fill. -/
theorem fillDecision_eq_none_left (p : List Bool) (m k : ℕ)
    (h : lastValidBefore p k = none) : fillDecision p m k = none := by
  unfold fillDecision
  rw [h]

/-- No right neighbour means no fill. -/
theorem fillDecision_eq_none_right (p : List Bool) (m k : ℕ)
    (h : firstValidFrom p (k + 1) = none) : fillDecision p m k = none := by
  unfold fillDecision
  rw [h]
  cases lastValidBefore p k <;> rfl

/-- A too-long gap means no fill. -/
theorem fillDecision_eq_none_gap (p : List Bool) (m k l r : ℕ)
    (hl : lastValidBefore p k = some l) (hr : firstValidFrom p (k + 1) = some r)
    (hgap : ¬ r - l - 1 ≤ m) : fillDecision p m k = none := by
  unfold fillDecision
  rw [hl, hr]
  dsimp only
  rw [if_neg hgap]

/-- An unfillable position with neighbours on both sides has a too-long gap. -/
theorem gap_of_fillDecision_eq_none (p : List Bool) (m i l r : ℕ)
    (hd : fillDecision p m i = none) (hl : lastValidBefore p i = some l)
    (hr : firstValidFrom p (i + 1) = some r) : ¬ r - l - 1 ≤ m := by
  intro hle
  unfold fillDecision at hd
  rw [hl, hr] at hd
  dsimp only at hd
  rw [if_pos hle] at hd
  exact absurd hd (by simp)

/-- `fillAt` yields `none` exactly on unfillable missing positions. -/
theorem fillAt_eq_none_iff (s : List (Option Keypoint)) (m i : ℕ) :
    fillAt s m i = none ↔
      s.getD i none = none ∧ fillDecision (pat s) m i = none := by
  unfold fillAt
  cases hs : s.getD i none with
  | some k => simp
  | none =>
      cases hd : fillDecision (pat s) m i with
      | none => simp
      | some lr =>
          obtain ⟨l, r⟩ := lr
          obtain ⟨hlv, hfv, _⟩ := fillDecision_eq_some (pat s) m i l r hd
          obtain ⟨_, hpl, _⟩ := (lastValidBefore_eq_some_iff (pat s) i l).mp hlv
          obtain ⟨_, hpr, _⟩ := (firstValidFrom_eq_some_iff (pat s) (i + 1) r).mp hfv
          rw [pat_getD] at hpl hpr
          obtain ⟨kl, hkl⟩ := Option.isSome_iff_exists.mp hpl
          obtain ⟨kr, hkr⟩ := Option.isSome_iff_exists.mp hpr
          rw [List.getD_eq_getElem?_getD] at hkl hkr
          simp [hkl, hkr]

/-- Reading the filled series at a position. -/
theorem fillSeries_getD (s : List (Option Keypoint)) (m i : ℕ) :
    (fillSeries m s).getD i none =
      if i < s.length then fillAt s m i else none := by
  unfold fillSeries
  rw [List.getD_eq_getElem?_getD, List.getElem?_map]
  by_cases h : i < s.length
  · rw [List.getElem?_range (by simpa using h), if_pos h]
    rfl
  · rw [if_neg h]
    have hnone : (List.range s.length)[i]? = none := by
      rw [List.getElem?_eq_none_iff]
      simpa using Nat.le_of_not_lt h
    rw [hnone]
    rfl

/-- The filled series has the same length. -/
theorem fillSeries_length (s : List (Option Keypoint)) (m : ℕ) :
    (fillSeries m s).length = s.length := by
  simp [fillSeries]

/-- A false pattern entry means the sample is missing. -/
theorem eq_none_of_pat_false (s : List (Option Keypoint)) (j : ℕ)
    (h : (pat s).getD j false = false) : s.getD j none = none := by
  rw [pat_getD] at h
  cases hc : s.getD j none with
  | none => rfl
  | some k => rw [hc] at h; exact absurd h (by simp)

/-- Filling preserves valid positions of the pattern. -/
theorem fill_pattern_true_of (s : List (Option Keypoint)) (m j : ℕ)
    (h : (pat s).getD j false = true) :
    (pat (fillSeries m s)).getD j false = true := by
  have hjlen : j < s.length := by
    have := lt_length_of_getD_true (pat s) j h
    rwa [pat_length] at this
  rw [pat_getD, fillSeries_getD, if_pos hjlen]
  rw [pat_getD] at h
  obtain ⟨k, hk⟩ := Option.isSome_iff_exists.mp h
  rw [fillAt_of_some s m j k hk]
  rfl

/-- Unfillable missing positions remain missing after filling. -/
theorem fill_pattern_false_of (s : List (Option Keypoint)) (m j : ℕ)
    (h1 : s.getD j none = none) (h2 : fillDecision (pat s) m j = none) :
    (pat (fillSeries m s)).getD j false = false := by
  rw [pat_getD, fillSeries_getD]
  by_cases hjlen : j < s.length
  · rw [if_pos hjlen, (fillAt_eq_none_iff s m j).mpr ⟨h1, h2⟩]
    rfl
  · rw [if_neg hjlen]
    rfl

/-- The filled pattern is false beyond the series length. -/
theorem fill_pattern_false_beyond (s : List (Option Keypoint)) (m j : ℕ)
    (h : ¬ j < s.length) : (pat (fillSeries m s)).getD j false = false := by
  rw [pat_getD, fillSeries_getD, if_neg h]
  rfl

/-- The key idempotence fact: a position the filler leaves missing is still
unfillable with respect to the filled series' own validity pattern — filling
never creates a new fillable gap. -/
theorem fillSeries_no_fillable (s : List (Option Keypoint)) (m i : ℕ)
    (hi : i < s.length) (hnone : (fillSeries m s).getD i none = none) :
    fillDecision (pat (fillSeries m s)) m i = none := by
  rw [fillSeries_getD, if_pos hi] at hnone
  obtain ⟨hsi, hdi⟩ := (fillAt_eq_none_iff s m i).mp hnone
  have hpi : (pat s).getD i false = false := by
    rw [pat_getD, hsi]
    rfl
  have hsub1 : lastValidBefore (pat (fillSeries m s)) i = lastValidBefore (pat s) i := by
    cases hlv : lastValidBefore (pat s) i with
    | none =>
        rw [lastValidBefore_eq_none_iff] at hlv ⊢
        intro j hj
        by_cases hjlen : j < s.length
        · refine fill_pattern_false_of s m j (eq_none_of_pat_false s j (hlv j hj)) ?_
          refine fillDecision_eq_none_left (pat s) m j ?_
          rw [lastValidBefore_eq_none_iff]
          intro k hk
          exact hlv k (by omega)
        · exact fill_pattern_false_beyond s m j hjlen
    | some l =>
        obtain ⟨hl_lt, hpl, hbet⟩ := (lastValidBefore_eq_some_iff (pat s) i l).mp hlv
        rw [lastValidBefore_eq_some_iff]
        refine ⟨hl_lt, fill_pattern_true_of s m l hpl, fun j hj1 hj2 => ?_⟩
        have hpj : (pat s).getD j false = false := hbet j hj1 hj2
        refine fill_pattern_false_of s m j (eq_none_of_pat_false s j hpj) ?_
        have hlvj : lastValidBefore (pat s) j = some l := by
          rw [lastValidBefore_eq_some_iff]
          exact ⟨hj1, hpl, fun k hk1 hk2 => hbet k hk1 (by omega)⟩
        cases hfv : firstValidFrom (pat s) (i + 1) with
        | none =>
            refine fillDecision_eq_none_right (pat s) m j ?_
            rw [firstValidFrom_eq_none_iff] at hfv ⊢
            intro k hk
            rcases lt_or_ge k (i + 1) with hki | hki
            · rcases Nat.lt_succ_iff_lt_or_eq.mp hki with hki | rfl
              · exact hbet k (by omega) hki
              · exact hpi
            · exact hfv k hki
        | some r =>
            have hgap := gap_of_fillDecision_eq_none (pat s) m i l r hdi hlv hfv
            obtain ⟨hir, hpr, hbet'⟩ := (firstValidFrom_eq_some_iff (pat s) (i + 1) r).mp hfv
            have hfvj : firstValidFrom (pat s) (j + 1) = some r := by
              rw [firstValidFrom_eq_some_iff]
              refine ⟨by omega, hpr, fun k hk1 hk2 => ?_⟩
              rcases lt_or_ge k (i + 1) with hki | hki
              · rcases Nat.lt_succ_iff_lt_or_eq.mp hki with hki | rfl
                · exact hbet k (by omega) hki
                · exact hpi
              · exact hbet' k hki hk2
            exact fillDecision_eq_none_gap (pat s) m j l r hlvj hfvj hgap
  have hsub2 : firstValidFrom (pat (fillSeries m s)) (i + 1) =
      firstValidFrom (pat s) (i + 1) := by
    cases hfv : firstValidFrom (pat s) (i + 1) with
    | none =>
        rw [firstValidFrom_eq_none_iff] at hfv ⊢
        intro k hk
        by_cases hklen : k < s.length
        · refine fill_pattern_false_of s m k (eq_none_of_pat_false s k (hfv k hk)) ?_
          refine fillDecision_eq_none_right (pat s) m k ?_
          rw [firstValidFrom_eq_none_iff]
          intro k2 hk2
          exact hfv k2 (by omega)
        · exact fill_pattern_false_beyond s m k hklen
    | some r =>
        obtain ⟨hir, hpr, hbet'⟩ := (firstValidFrom_eq_some_iff (pat s) (i + 1) r).mp hfv
        rw [firstValidFrom_eq_some_iff]
        refine ⟨hir, fill_pattern_true_of s m r hpr, fun k hk1 hk2 => ?_⟩
        have hpk : (pat s).getD k false = false := hbet' k hk1 hk2
        have hrlen : r < s.length := by
          have := lt_length_of_getD_true (pat s) r hpr
          rwa [pat_length] at this
        refine fill_pattern_false_of s m k (eq_none_of_pat_false s k hpk) ?_
        have hfvk : firstValidFrom (pat s) (k + 1) = some r := by
          rw [firstValidFrom_eq_some_iff]
          exact ⟨by omega, hpr, fun k2 h1 h2 => hbet' k2 (by omega) h2⟩
        cases hlvi : lastValidBefore (pat s) i with
        | none =>
            refine fillDecision_eq_none_left (pat s) m k ?_
            rw [lastValidBefore_eq_none_iff] at hlvi ⊢
            intro j hj
            rcases lt_or_ge j i with hji | hji
            · exact hlvi j hji
            · rcases Nat.eq_or_lt_of_le hji with rfl | hji
              · exact hpi
              · exact hbet' j (by omega) (by omega)
        | some l =>
            have hgap := gap_of_fillDecision_eq_none (pat s) m i l r hdi hlvi hfv
            obtain ⟨hli, hpl, hbetl⟩ := (lastValidBefore_eq_some_iff (pat s) i l).mp hlvi
            have hlvk : lastValidBefore (pat s) k = some l := by
              rw [lastValidBefore_eq_some_iff]
              refine ⟨by omega, hpl, fun j hj1 hj2 => ?_⟩
              rcases lt_or_ge j i with hji | hji
              · exact hbetl j hj1 hji
              · rcases Nat.eq_or_lt_of_le hji with rfl | hji
                · exact hpi
                · exact hbet' j (by omega) (by omega)
            exact fillDecision_eq_none_gap (pat s) m k l r hlvk hfvk hgap
  unfold fillDecision
  rw [hsub1, hsub2]
  unfold fillDecision at hdi
  exact hdi

/-- A possibly-missing keypoint whose confidence (when present) passes the
threshold. -/
def aboveThr (threshold : ℚ) (o : Option Keypoint) : Prop :=
  ∀ k, o = some k → ¬ k.conf < threshold

/-- Missing keypoints pass vacuously. -/
theorem aboveThr_none (threshold : ℚ) : aboveThr threshold none := by
  intro k hk
  exact absurd hk (by simp)

/-- Confidence filtering only outputs keypoints that pass the threshold. -/
theorem dropKp_aboveThr (threshold : ℚ) (o : Option Keypoint) :
    aboveThr threshold (dropKp threshold o) := by
  cases o with
  | none => exact aboveThr_none threshold
  | some p =>
      unfold dropKp
      dsimp only
      split_ifs with h
      · exact aboveThr_none threshold
      · intro k hk
        injection hk with hk
        subst hk
        exact h

/-- Confidence filtering is the identity on keypoints that pass the
threshold. -/
theorem dropKp_eq_self (threshold : ℚ) (o : Option Keypoint)
    (h : aboveThr threshold o) : dropKp threshold o = o := by
  cases o with
  | none => rfl
  | some p =>
      unfold dropKp
      dsimp only
      rw [if_neg (h p rfl)]

/-- Interpolated keypoints inherit the smaller neighbour confidence, so they
pass the threshold whenever both neighbours do. -/
theorem aboveThr_interpKp (threshold : ℚ) (kl kr : Keypoint) (l r i : ℕ)
    (h1 : ¬ kl.conf < threshold) (h2 : ¬ kr.conf < threshold) :
    aboveThr threshold (some (interpKp kl kr l r i)) := by
  intro k hk
  injection hk with hk
  subst hk
  show ¬ min kl.conf kr.conf < threshold
  rw [min_lt_iff]
  tauto

/-- Filling a series of threshold-passing keypoints yields
threshold-passing keypoints. -/
theorem fillAt_aboveThr (threshold : ℚ) (s : List (Option Keypoint)) (m i : ℕ)
    (h : ∀ j, aboveThr threshold (s.getD j none)) :
    aboveThr threshold (fillAt s m i) := by
  unfold fillAt
  cases hs : s.getD i none with
  | some k =>
      intro k2 hk2
      injection hk2 with hk2
      subst hk2
      exact h i _ hs
  | none =>
      cases hd : fillDecision (pat s) m i with
      | none => exact aboveThr_none threshold
      | some lr =>
          obtain ⟨l, r⟩ := lr
          dsimp only
          cases hl : s.getD l none with
          | none =>
              intro k hk
              rw [List.getD_eq_getElem?_getD] at hl
              exact absurd hk (by simp [hl])
          | some kl =>
              cases hr : s.getD r none with
              | none =>
                  intro k hk
                  rw [List.getD_eq_getElem?_getD] at hl hr
                  exact absurd hk (by simp [hl, hr])
              | some kr =>
                  exact aboveThr_interpKp threshold kl kr l r i
                    (h l kl hl) (h r kr hr)

/-- Frames are equal when all their components are. -/
theorem Frame.ext' (a b : Frame) (ht : a.t = b.t) (h1 : a.shoulder = b.shoulder)
    (h2 : a.hip = b.hip) (h3 : a.knee = b.knee) (h4 : a.ankle = b.ankle)
    (h5 : a.elbow = b.elbow) (h6 : a.wrist = b.wrist) : a = b := by
  cases a
  cases b
  dsimp at ht h1 h2 h3 h4 h5 h6
  rw [ht, h1, h2, h3, h4, h5, h6]

/-- Mapping a confidence-preserving function preserves the threshold
property. -/
theorem aboveThr_map (threshold : ℚ) (o : Option Keypoint)
    (σ : Keypoint → Keypoint) (hσ : ∀ k, (σ k).conf = k.conf)
    (h : aboveThr threshold o) : aboveThr threshold (o.map σ) := by
  cases o with
  | none => exact aboveThr_none threshold
  | some k0 =>
      intro k hk
      injection hk with hk
      subst hk
      rw [hσ k0]
      exact h k0 rfl

/-- Reading a landmark off a filtered frame filters the landmark. -/
theorem dropFrame_get (threshold : ℚ) (f : Frame) (l : Landmark) :
    (dropFrame threshold f).get l = dropKp threshold (f.get l) := by
  cases l <;> rfl

/-- Every entry of a column of the filtered stream passes the threshold. -/
theorem col_dropLow_aboveThr (threshold : ℚ) (fs : List Frame) (l : Landmark)
    (j : ℕ) : aboveThr threshold ((col l (dropLow threshold fs)).getD j none) := by
  by_cases hj : j < (col l (dropLow threshold fs)).length
  · rw [List.getD_eq_getElem _ _ hj]
    unfold col dropLow
    rw [List.getElem_map, List.getElem_map, dropFrame_get]
    exact dropKp_aboveThr threshold _
  · rw [List.getD_eq_default _ _ (by omega)]
    exact aboveThr_none threshold

/-- The all-missing placeholder frame. -/
def junkFrame : Frame := ⟨0, none, none, none, none, none, none⟩

/-- The filtered stream has the same frame count. -/
theorem dropLow_length (threshold : ℚ) (fs : List Frame) :
    (dropLow threshold fs).length = fs.length :=
  List.length_map fs (dropFrame threshold)

/-- The filled stream has the same frame count. -/
theorem fillFrames_length (m : ℕ) (fs : List Frame) :
    (fillFrames m fs).length = fs.length := by
  unfold fillFrames
  rw [List.length_map, List.length_range]

/-- The rescaled stream has the same frame count. -/
theorem rescaleFrames_length (fs : List Frame) :
    (rescaleFrames fs).length = fs.length :=
  List.length_map fs rescaleFrame

/-- A column has one entry per frame. -/
theorem col_length (l : Landmark) (fs : List Frame) :
    (col l fs).length = fs.length :=
  List.length_map fs _

/-- The processed stream has the same frame count. -/
theorem pipeline_length (cfg : NormConfig) (fs : List Frame) :
    (pipeline cfg fs).length = fs.length := by
  unfold pipeline
  rw [rescaleFrames_length, fillFrames_length, dropLow_length]

/-- Reading the filtered stream at an index. -/
theorem dropLow_getD (threshold : ℚ) (fs : List Frame) (n : ℕ) :
    (dropLow threshold fs).getD n junkFrame =
      dropFrame threshold (fs.getD n junkFrame) :=
  List.getD_map fs junkFrame (dropFrame threshold)

/-- Reading the rescaled stream at an index. -/
theorem rescaleFrames_getD (fs : List Frame) (n : ℕ) :
    (rescaleFrames fs).getD n junkFrame = rescaleFrame (fs.getD n junkFrame) :=
  List.getD_map fs junkFrame rescaleFrame

/-- Reading a column at an index. -/
theorem col_getD (l : Landmark) (fs : List Frame) (n : ℕ) :
    (col l fs).getD n none = (fs.getD n junkFrame).get l := by
  cases l <;> exact List.getD_map fs junkFrame _

/-- Reading the filled stream at an in-range index. -/
theorem fillFrames_getD (m : ℕ) (fs : List Frame) (n : ℕ) (h : n < fs.length) :
    (fillFrames m fs).getD n junkFrame =
      ⟨(frameAt fs n).t,
       fillAt (col Landmark.shoulder fs) m n,
       fillAt (col Landmark.hip fs) m n,
       fillAt (col Landmark.knee fs) m n,
       fillAt (col Landmark.ankle fs) m n,
       fillAt (col Landmark.elbow fs) m n,
       fillAt (col Landmark.wrist fs) m n⟩ := by
  unfold fillFrames
  rw [List.getD_eq_getElem _ _ (by rw [List.length_map, List.length_range]; exact h)]
  rw [List.getElem_map, List.getElem_range]

/-- Rescaling a frame transforms each landmark by one confidence-preserving
function (the identity when the frame is not rescaled). -/
theorem rescaleFrame_get (f : Frame) (l : Landmark) :
    ∃ σ : Keypoint → Keypoint, (∀ k, (σ k).conf = k.conf) ∧
      (rescaleFrame f).get l = (f.get l).map σ := by
  unfold rescaleFrame
  cases hh : f.hip with
  | none =>
      refine ⟨fun k => k, fun k => rfl, ?_⟩
      cases hsh : f.shoulder <;> rw [Option.map_id']
  | some h =>
      cases hsh : f.shoulder with
      | none =>
          refine ⟨fun k => k, fun k => rfl, ?_⟩
          rw [Option.map_id']
      | some sp =>
          dsimp only
          split_ifs with hd
          · exact ⟨fun k => k, fun k => rfl, by rw [Option.map_id']⟩
          · refine ⟨scaleKp (taxiDist h sp), fun k => rfl, ?_⟩
            cases l <;> simp [Frame.get, hh, hsh]

/-- Mapping preserves presence. -/
theorem isSome_map_kp (σ : Keypoint → Keypoint) (o : Option Keypoint) :
    (o.map σ).isSome = o.isSome := by
  cases o <;> rfl

/-- Confidence filtering is the identity on frames whose landmarks all pass
the threshold. -/
theorem dropFrame_eq_self (threshold : ℚ) (f : Frame)
    (h : ∀ l, aboveThr threshold (f.get l)) : dropFrame threshold f = f := by
  refine Frame.ext' _ _ rfl ?_ ?_ ?_ ?_ ?_ ?_
  · exact dropKp_eq_self threshold f.shoulder (h Landmark.shoulder)
  · exact dropKp_eq_self threshold f.hip (h Landmark.hip)
  · exact dropKp_eq_self threshold f.knee (h Landmark.knee)
  · exact dropKp_eq_self threshold f.ankle (h Landmark.ankle)
  · exact dropKp_eq_self threshold f.elbow (h Landmark.elbow)
  · exact dropKp_eq_self threshold f.wrist (h Landmark.wrist)

/-- Every landmark of every processed frame passes the confidence
threshold. -/
theorem pipeline_getD_aboveThr (cfg : NormConfig) (fs : List Frame) (n : ℕ)
    (l : Landmark) :
    aboveThr cfg.confThreshold (((pipeline cfg fs).getD n junkFrame).get l) := by
  by_cases hn : n < fs.length
  · unfold pipeline
    rw [rescaleFrames_getD]
    obtain ⟨σ, hσc, hσg⟩ := rescaleFrame_get _ l
    rw [hσg]
    apply aboveThr_map _ _ _ hσc
    rw [fillFrames_getD _ _ _ (by rw [dropLow_length]; exact hn)]
    cases l <;>
      exact fillAt_aboveThr _ _ _ _ (fun j => col_dropLow_aboveThr cfg.confThreshold fs _ j)
  · rw [List.getD_eq_default _ _ (by rw [pipeline_length]; omega)]
    cases l <;> exact aboveThr_none _

/-- Confidence filtering is the identity on the processed stream. -/
theorem dropLow_pipeline_eq (cfg : NormConfig) (fs : List Frame) :
    dropLow cfg.confThreshold (pipeline cfg fs) = pipeline cfg fs := by
  apply List.ext_getElem (dropLow_length _ _)
  intro n h1 h2
  rw [← List.getD_eq_getElem _ junkFrame h1, ← List.getD_eq_getElem _ junkFrame h2]
  rw [dropLow_getD]
  exact dropFrame_eq_self _ _ (fun l => pipeline_getD_aboveThr cfg fs n l)

/-- Scaling by 1 is the identity. -/
theorem scaleKp_one (k : Keypoint) : scaleKp 1 k = k := by
  unfold scaleKp
  rw [div_one, div_one]

/-- Mapping the unit scale over an optional keypoint is the identity. -/
theorem map_scaleKp_one (o : Option Keypoint) : o.map (scaleKp 1) = o := by
  cases o with
  | none => rfl
  | some k => exact congrArg some (scaleKp_one k)

/-- Rescaling scales the taxicab distance. -/
theorem taxiDist_scaleKp (d : ℚ) (a b : Keypoint) :
    taxiDist (scaleKp d a) (scaleKp d b) = taxiDist a b / |d| := by
  unfold taxiDist scaleKp
  dsimp only
  rw [div_sub_div_same, div_sub_div_same, abs_div, abs_div, div_add_div_same]

/-- The taxicab distance is nonnegative. -/
theorem taxiDist_nonneg (a b : Keypoint) : 0 ≤ taxiDist a b :=
  add_nonneg (abs_nonneg _) (abs_nonneg _)

/-- Rescaling a frame is idempotent: after one rescale the hip-to-shoulder
distance is 1. -/
theorem rescaleFrame_idem (f : Frame) :
    rescaleFrame (rescaleFrame f) = rescaleFrame f := by
  cases hh : f.hip with
  | none =>
      have h1 : rescaleFrame f = f := by
        unfold rescaleFrame
        rw [hh]
      rw [h1, h1]
  | some h =>
      cases hsh : f.shoulder with
      | none =>
          have h1 : rescaleFrame f = f := by
            unfold rescaleFrame
            rw [hh, hsh]
          rw [h1, h1]
      | some sp =>
          by_cases hd : taxiDist h sp = 0
          · have h1 : rescaleFrame f = f := by
              unfold rescaleFrame
              rw [hh, hsh]
              dsimp only
              rw [if_pos hd]
            rw [h1, h1]
          · have h1 : rescaleFrame f =
                ⟨f.t, some (scaleKp (taxiDist h sp) sp),
                 some (scaleKp (taxiDist h sp) h),
                 f.knee.map (scaleKp (taxiDist h sp)),
                 f.ankle.map (scaleKp (taxiDist h sp)),
                 f.elbow.map (scaleKp (taxiDist h sp)),
                 f.wrist.map (scaleKp (taxiDist h sp))⟩ := by
              unfold rescaleFrame
              rw [hh, hsh]
              dsimp only
              rw [if_neg hd]
              rfl
            rw [h1]
            have hd1 : taxiDist (scaleKp (taxiDist h sp) h) (scaleKp (taxiDist h sp) sp) = 1 := by
              rw [taxiDist_scaleKp]
              rw [abs_of_pos (lt_of_le_of_ne (taxiDist_nonneg h sp) (Ne.symm hd))]
              exact div_self hd
            unfold rescaleFrame
            dsimp only
            rw [hd1, if_neg one_ne_zero]
            refine Frame.ext' _ _ rfl ?_ ?_ ?_ ?_ ?_ ?_ <;>
              (dsimp only; exact map_scaleKp_one _)

/-- Rescaling is the identity on the processed stream: every processed frame
is already a rescaled frame. -/
theorem rescaleFrames_pipeline_eq (cfg : NormConfig) (fs : List Frame) :
    rescaleFrames (pipeline cfg fs) = pipeline cfg fs := by
  unfold pipeline rescaleFrames
  rw [List.map_map]
  exact List.map_congr_left (fun f _ => rescaleFrame_idem f)

/-- The validity pattern of a landmark column of the processed stream equals
the pattern of the filled column of the filtered stream: rescaling changes
positions but not presence. -/
theorem pat_col_pipeline (cfg : NormConfig) (fs : List Frame) (l : Landmark) :
    pat (col l (pipeline cfg fs)) =
      pat (fillSeries cfg.maxGap (col l (dropLow cfg.confThreshold fs))) := by
  apply List.ext_getElem
  · rw [pat_length, col_length, pipeline_length, pat_length, fillSeries_length,
      col_length, dropLow_length]
  · intro n h1 h2
    have hn : n < fs.length := by
      rw [pat_length, col_length, pipeline_length] at h1
      exact h1
    rw [← List.getD_eq_getElem _ false h1, ← List.getD_eq_getElem _ false h2]
    rw [pat_getD, pat_getD, col_getD]
    unfold pipeline
    rw [rescaleFrames_getD]
    obtain ⟨σ, hσc, hσg⟩ := rescaleFrame_get _ l
    rw [hσg, isSome_map_kp]
    rw [fillFrames_getD _ _ _ (by rw [dropLow_length]; exact hn)]
    rw [fillSeries_getD, if_pos (by rw [col_length, dropLow_length]; exact hn)]
    cases l <;> rfl

/-- Gap filling is the identity on the processed stream: the filler leaves no
fillable gap behind. -/
theorem fillFrames_pipeline_eq (cfg : NormConfig) (fs : List Frame) :
    fillFrames cfg.maxGap (pipeline cfg fs) = pipeline cfg fs := by
  apply List.ext_getElem (fillFrames_length _ _)
  intro n h1 h2
  have hn : n < (pipeline cfg fs).length := h2
  have hnf : n < fs.length := by rw [pipeline_length] at hn; exact hn
  rw [← List.getD_eq_getElem _ junkFrame h1, ← List.getD_eq_getElem _ junkFrame h2]
  rw [fillFrames_getD _ _ _ hn]
  have key : ∀ l : Landmark, fillAt (col l (pipeline cfg fs)) cfg.maxGap n =
      ((pipeline cfg fs).getD n junkFrame).get l := by
    intro l
    cases hu : (col l (pipeline cfg fs)).getD n none with
    | some k =>
        rw [fillAt_of_some _ _ _ _ hu, ← col_getD, hu]
    | none =>
        have hdec : fillDecision (pat (col l (pipeline cfg fs))) cfg.maxGap n = none := by
          rw [pat_col_pipeline]
          apply fillSeries_no_fillable
          · rw [col_length, dropLow_length]
            exact hnf
          · have hp : (pat (col l (pipeline cfg fs))).getD n false = false := by
              rw [pat_getD, hu]
              rfl
            rw [pat_col_pipeline, pat_getD] at hp
            rw [fillSeries_getD,
              if_pos (by rw [col_length, dropLow_length]; exact hnf)] at hp ⊢
            cases hfa : fillAt (col l (dropLow cfg.confThreshold fs)) cfg.maxGap n with
            | none => rfl
            | some k => rw [hfa] at hp; exact absurd hp (by simp)
        rw [(fillAt_eq_none_iff _ _ _).mpr ⟨hu, hdec⟩, ← col_getD, hu]
  refine Frame.ext' _ _ rfl ?_ ?_ ?_ ?_ ?_ ?_
  · exact key Landmark.shoulder
  · exact key Landmark.hip
  · exact key Landmark.knee
  · exact key Landmark.ankle
  · exact key Landmark.elbow
  · exact key Landmark.wrist

/-- The normalizer's processing pipeline is idempotent. -/
theorem pipeline_idem (cfg : NormConfig) (fs : List Frame) :
    pipeline cfg (pipeline cfg fs) = pipeline cfg fs := by
  show rescaleFrames (fillFrames cfg.maxGap (dropLow cfg.confThreshold
    (pipeline cfg fs))) = pipeline cfg fs
  rw [dropLow_pipeline_eq, fillFrames_pipeline_eq, rescaleFrames_pipeline_eq]

/-- C7: `normalize` is idempotent — normalizing an already-normalized stream
returns it unchanged (and succeeds). -/
theorem c7_normalize_idempotent :
    ∀ (cfg : NormConfig) (req : List Landmark) (fs gs : List Frame),
      normalize cfg req fs = Except.ok gs → normalize cfg req gs = Except.ok gs := by
  intro cfg req fs gs h
  unfold normalize at h
  split_ifs at h with hcond
  injection h with h
  subst h
  unfold normalize
  rw [pipeline_idem, if_pos hcond]

/-- A three-frame stream with a low-confidence wrist in the first frame and a
missing knee in the middle frame. -/
def gapFrames : List Frame :=
  [⟨0, some ⟨0, 1, 1⟩, some ⟨0, 0, 1⟩, some ⟨0, -1, 1⟩, some ⟨0, -2, 1⟩, none,
      some ⟨5, 5, 1 / 4⟩⟩,
   ⟨1, some ⟨0, 1, 1⟩, some ⟨0, 0, 1⟩, none, some ⟨0, -2, 1⟩, none, none⟩,
   ⟨2, some ⟨0, 1, 1⟩, some ⟨0, 0, 1⟩, some ⟨1, -2, 1⟩, some ⟨0, -2, 1⟩, none, none⟩]

/-- The normalized form of `gapFrames`: the wrist is dropped and the knee gap
is linearly interpolated. -/
def gapNormalized : List Frame :=
  [⟨0, some ⟨0, 1, 1⟩, some ⟨0, 0, 1⟩, some ⟨0, -1, 1⟩, some ⟨0, -2, 1⟩, none, none⟩,
   ⟨1, some ⟨0, 1, 1⟩, some ⟨0, 0, 1⟩, some ⟨1 / 2, -3 / 2, 1⟩, some ⟨0, -2, 1⟩,
      none, none⟩,
   ⟨2, some ⟨0, 1, 1⟩, some ⟨0, 0, 1⟩, some ⟨1, -2, 1⟩, some ⟨0, -2, 1⟩, none, none⟩]

/-- Normalizing the gap stream drops the wrist and fills the knee. -/
theorem gapFrames_normalize :
    normalize defaultNormConfig squatConfig.required gapFrames =
      Except.ok gapNormalized := by
  norm_num [normalize, pipeline, defaultNormConfig, squatConfig, gapFrames,
    gapNormalized, rescaleFrames, fillFrames, col, dropLow, dropFrame, dropKp,
    frameAt, fillAt, pat, fillDecision, lastValidBefore, firstValidFrom, interpKp,
    rescaleFrame, taxiDist, scaleKp, hasRequired, Frame.get, List.range_succ,
    List.countP_cons]

/-- C7 witness: the theorem applied to the gap stream, whose normalization is
computed by evaluation; normalizing its output returns it unchanged. -/
theorem c7_normalize_idempotent_witness :
    normalize defaultNormConfig squatConfig.required gapNormalized =
      Except.ok gapNormalized :=
  c7_normalize_idempotent defaultNormConfig squatConfig.required gapFrames
    gapNormalized gapFrames_normalize

end Gymform
